import Mathlib

/-!
Verification development for the PerfSim discrete-event simulator.

Each Python class or function that a checked property mentions is shallowly
embedded as a Lean definition over `ℚ` (Python floats are modelled as exact
rationals; `float('inf')` sentinels become `Option` with `none` for infinity,
and code paths that raise exceptions become `Except String`).  Python
`set`/`dict` containers are modelled as lists; where the iteration order of a
set matters it is modelled as the list order.
-/

/-! ## Rounding helpers

Python's built-in `round` rounds half to even.  `roundHalfEven` models it on
exact rationals, and `roundTo5` models `round(x, 5)`. -/

/-- Round a rational to the nearest integer, ties to even (Python `round`). -/
def roundHalfEven (x : ℚ) : ℤ :=
  if Int.fract x = 1/2 then (if 2 ∣ ⌊x⌋ then ⌊x⌋ else ⌊x⌋ + 1) else round x

/-- Python `round(x, 5)`: round to 5 decimal places, ties to even. -/
def roundTo5 (x : ℚ) : ℚ :=
  (roundHalfEven (x * 100000) : ℚ) / 100000

/-! ## Resource accounting (`perfsim/equipments/resource.py`)

`Resource.__init__` sets `__reserved = 0`; `get_utilization` returns
`self.capacity / self.reserved`.  A Python division by zero raises
`ZeroDivisionError`, modelled as `none`. -/

structure Resource where
  rtype : String
  name : String
  throttleable : Bool
  unit_of_measure : String
  capacity : ℚ
  reserved : ℚ

/-- `Resource.__init__`: all descriptive fields are stored and `reserved` starts at 0. -/
def Resource.init (rtype name : String) (throttleable : Bool) (unit_of_measure : String)
    (capacity : ℚ) : Resource :=
  { rtype := rtype, name := name, throttleable := throttleable,
    unit_of_measure := unit_of_measure, capacity := capacity, reserved := 0 }

/-- `Resource.get_utilization`: returns `capacity / reserved`; `none` models the
`ZeroDivisionError` Python raises when `reserved = 0`. -/
def Resource.get_utilization (r : Resource) : Option ℚ :=
  if r.reserved = 0 then none else some (r.capacity / r.reserved)

/-- `Resource.get_available`: `capacity - reserved`. -/
def Resource.get_available (r : Resource) : ℚ :=
  r.capacity - r.reserved

/-! ## Observer bus (`perfsim/observers/observable.py`)

`observers` is a dict from event name to a set of observers, modelled as an
association list; `registered_events` is a set of names, modelled as a list.
`attach_observer` walks the observer's event names in order and raises on the
first name that is neither a key of `observers` nor registered. -/

structure EventObserver where
  oid : ℕ
  events : List String

structure Observable where
  observers : List (String × List ℕ)
  registered_events : List String

/-- Keys of the `observers` dict. -/
def Observable.observerKeys (st : Observable) : List String :=
  st.observers.map Prod.fst

/-- Add an observer id to the set stored under an existing event key. -/
def addObserverToKey (m : List (String × List ℕ)) (e : String) (oid : ℕ) :
    List (String × List ℕ) :=
  m.map (fun p => if p.1 = e then (p.1, oid :: p.2) else p)

/-- `Observable.register_event`: adds the name to `registered_events`. -/
def Observable.register_event (st : Observable) (e : String) : Observable :=
  { st with registered_events := e :: st.registered_events }

/-- The body of `Observable.attach_observer`: for each event name of the
observer, if the name is not a key of `observers` then it must already be
registered (otherwise an exception is raised) and a fresh singleton entry is
created; in both non-raising cases the observer is added under the key. -/
def attachObserverGo (st : Observable) (oid : ℕ) : List String → Except String Observable
  | [] => .ok st
  | e :: rest =>
    if st.observerKeys.contains e then
      attachObserverGo { st with observers := addObserverToKey st.observers e oid } oid rest
    else if st.registered_events.contains e then
      attachObserverGo { st with observers := (e, [oid]) :: st.observers } oid rest
    else
      .error ("Event " ++ e ++ " is not registered. Please first register the event using register_event method.")

/-- `Observable.attach_observer`. -/
def Observable.attach_observer (st : Observable) (obs : EventObserver) :
    Except String Observable :=
  attachObserverGo st obs.oid obs.events

/-- Whether an `Except` computation succeeded. -/
def exceptOk {ε α : Type} : Except ε α → Bool
  | .ok _ => true
  | .error _ => false

/-! ## EXEC-TIME-EST event selection (`perfsim/traffic/load_generator.py`,
`LoadGenerator._exec_time_estimation`, lines 299-306)

After computing `duration_of_next_event`, the driver checks it against
`float('inf')` (modelled as `none`): if it is infinite and the previous event
was NOT `"THREAD GEN"` the next event is set to `"THREAD GEN"`; if it is
infinite and the previous event WAS `"THREAD GEN"` an exception is raised;
a finite duration leads to `"RUN THREADS"`. -/

def execTimeEstimationNextEvent (duration_of_next_event : Option ℚ)
    (previous_event : String) : Except String String :=
  match duration_of_next_event with
  | none =>
    if previous_event ≠ "THREAD GEN" then .ok "THREAD GEN"
    else .error "Next event can't be inf! Probably a bug!"
  | some _ => .ok "RUN THREADS"

/-! ## Transmission (`perfsim/traffic/transmission.py`)

State relevant to `transmit` / `calculate_transmission_time`:
`total_latency` and `remaining_payload_size` are floats (modelled as `ℚ`);
`current_bw` can be `float('inf')` when the source and destination NICs sit on
the same equipment (no links on the path), modelled as `none`.  `srcEqDst`
records the Python identity test `source_nic.equipment is dest_nic.equipment`. -/

structure TransmissionState where
  srcEqDst : Bool
  total_latency : ℚ
  remaining_payload_size : ℚ
  current_bw : Option ℚ
deriving DecidableEq, Repr

/-- `Transmission.calculate_transmission_time`: 0 for a same-equipment pair,
otherwise `(remaining_payload_size / current_bw) * 1e9 + total_latency`
(`payload / inf = 0` in Python, hence the `none` branch contributes 0). -/
def TransmissionState.calculate_transmission_time (t : TransmissionState) : ℚ :=
  if t.srcEqDst then 0
  else
    (match t.current_bw with
     | none => 0
     | some bw => t.remaining_payload_size / bw) * 1000000000 + t.total_latency

/-- The payload half of `Transmission.transmit` (lines 137-154): debit the
payload by `current_bw * duration / 1e9` (or zero it at infinite bandwidth),
snap `-1 < payload < 1` to 0, raise when the payload is still negative, and
return the recomputed transmission time. -/
def TransmissionState.transmitPayload (t : TransmissionState) (duration : ℚ) :
    Except String (TransmissionState × ℚ) :=
  let t1 :=
    match t.current_bw with
    | some bw =>
      { t with remaining_payload_size := t.remaining_payload_size - bw * (duration / 1000000000) }
    | none => { t with remaining_payload_size := 0 }
  if -1 < t1.remaining_payload_size ∧ t1.remaining_payload_size < 1 then
    .ok ({ t1 with remaining_payload_size := 0 },
         TransmissionState.calculate_transmission_time { t1 with remaining_payload_size := 0 })
  else if t1.remaining_payload_size < 0 then
    .error "remaining_payload_size is less than zero! Something is wrong! Probably a bug."
  else
    .ok (t1, t1.calculate_transmission_time)

/-- `Transmission.transmit` (lines 126-154): the duration is applied to the
residual latency first; if it does not exhaust the latency the function
returns early with the recomputed transmission time, otherwise the excess is
applied to the payload. -/
def TransmissionState.transmit (t : TransmissionState) (duration : ℚ) :
    Except String (TransmissionState × ℚ) :=
  if 0 < t.total_latency then
    if t.total_latency < duration then
      TransmissionState.transmitPayload { t with total_latency := 0 } (duration - t.total_latency)
    else
      let t' := { t with total_latency := t.total_latency - duration }
      .ok (t', t'.calculate_transmission_time)
  else
    TransmissionState.transmitPayload t duration

/-! ## Request state machine (`perfsim/traffic/request.py`)

The per-subchain status array, the completed-subchains counter, the request
status string, and the latency bookkeeping are modelled; field writes not
observable by the checked property (current/next node and replica arrays,
transmission bookkeeping) are elided.  The operations that touch the modelled
fields are:

* `finalize_subchain` (lines 166-181): mark a subchain `CONCLUDED` (bumping
  the counter only on an actual transition) and, whenever the counter equals
  the number of subchains, `conclude`;
* `conclude` (lines 408-423): record completion time, latency and
  `status = "COMPLETED"`;
* `init_transmission` / `init_next_microservices` mark a subchain
  `"IN TRANSMISSION"`;
* `Cluster.transmit_requests_in_network` sets `request.status =
  "MICROSERVICE"` and `finish_transmission` marks the subchain
  `"INIT MICROSERVICE"`, both only for a subchain currently
  `"IN TRANSMISSION"`. -/

inductive SubchainStatus
  | created
  | concluded
  | inTransmission
  | initMicroservice
deriving DecidableEq, Repr

structure RequestState where
  arrival_time : ℚ
  completion_time : Option ℚ
  latency : ℚ
  subchains_status : List SubchainStatus
  completed_subchains_count : ℕ
  status : String
deriving DecidableEq, Repr

/-- `Request.__init__`: all subchains start `"CREATED"`, the counter at 0,
and the request `"IN_PROGRESS"`; `latency` is initialised to 0. -/
def RequestState.init (numSubchains : ℕ) (arrival : ℚ) : RequestState :=
  { arrival_time := arrival, completion_time := none, latency := 0,
    subchains_status := List.replicate numSubchains .created,
    completed_subchains_count := 0, status := "IN_PROGRESS" }

/-- `Request.conclude`: record the completion time, set
`latency = completion_time - arrival_time` and `status = "COMPLETED"`. -/
def RequestState.conclude (st : RequestState) (time : ℚ) : RequestState :=
  { st with completion_time := some time,
            latency := time - st.arrival_time,
            status := "COMPLETED" }

/-- `Request.finalize_subchain`: conclude the subchain (bumping the counter
only if it was not already `"CONCLUDED"`) and conclude the whole request when
the counter reaches the number of subchains. -/
def RequestState.finalize_subchain (st : RequestState) (i : ℕ) (now : ℚ) : RequestState :=
  match st.subchains_status.get? i with
  | none => st
  | some s =>
    let st' :=
      if s ≠ SubchainStatus.concluded then
        { st with subchains_status := st.subchains_status.set i .concluded,
                  completed_subchains_count := st.completed_subchains_count + 1 }
      else st
    if st'.completed_subchains_count = st'.subchains_status.length then
      st'.conclude now
    else st'

/-- The operations of the driver that touch the modelled request fields. -/
inductive RequestOp
  | finalize (i : ℕ) (now : ℚ)
  | markInTransmission (i : ℕ)
  | finishTransmission (i : ℕ)

/-- Apply one driver operation to a request. -/
def RequestState.applyOp (st : RequestState) : RequestOp → RequestState
  | .finalize i now => st.finalize_subchain i now
  | .markInTransmission i =>
    { st with subchains_status := st.subchains_status.set i .inTransmission }
  | .finishTransmission i =>
    { st with subchains_status := st.subchains_status.set i .initMicroservice,
              status := "MICROSERVICE" }

/-- Apply a sequence of driver operations. -/
def RequestState.applyOps (st : RequestState) (ops : List RequestOp) : RequestState :=
  ops.foldl RequestState.applyOp st

/-- The discipline the driver observes when it invokes the request methods:
subchain ids are in range, `finalize_subchain` and the transmission markers
target a subchain that is not yet `"CONCLUDED"` (each subchain is finalized at
most once, and only active subchains transmit), `finish_transmission` targets
a subchain that is `"IN TRANSMISSION"` (the guard in
`Cluster.transmit_requests_in_network`), and the simulation clock at a
finalization is at least the request's arrival time. -/
def legalOps (st : RequestState) : List RequestOp → Prop
  | [] => True
  | op :: rest =>
    (match op with
     | .finalize i now =>
       i < st.subchains_status.length ∧
       st.subchains_status.get? i ≠ some .concluded ∧
       st.arrival_time ≤ now
     | .markInTransmission i =>
       i < st.subchains_status.length ∧
       st.subchains_status.get? i ≠ some .concluded
     | .finishTransmission i =>
       i < st.subchains_status.length ∧
       st.subchains_status.get? i = some .inTransmission) ∧
    legalOps (st.applyOp op) rest

/-- The invariant tying the completed-subchains counter, the per-subchain
statuses, the request status and the latency bookkeeping together. -/
def RequestInv (st : RequestState) : Prop :=
  st.completed_subchains_count = st.subchains_status.count .concluded ∧
  0 < st.subchains_status.length ∧
  (st.status = "COMPLETED" ↔
    st.completed_subchains_count = st.subchains_status.length) ∧
  (st.status = "COMPLETED" →
    ∃ c, st.completion_time = some c ∧ st.latency = c - st.arrival_time ∧
      st.arrival_time ≤ c)

/-! ## CPU pair-level load balancing (`perfsim/equipments/cpu.py`)

Only the state observed by one pair-domain balancing decision is modelled:
a core is summarised by its run queue load, its number of active threads and
the first key of its `lightest_threads_in_rq` index (the minimum thread load
on that core). -/

structure CoreState where
  load : ℚ
  active_threads : ℕ
  lightest_thread_load : ℚ
deriving DecidableEq, Repr

/-- `CPU.get_busiest_core_in_pair_by_core_id`, comparing the current core
(the receiver) with the other core of its pair (the sibling); returns `true`
when the sibling is chosen.  Load ties go to the core with at least as many
active threads. -/
def busiestIsSibling (receiver sibling : CoreState) : Bool :=
  if sibling.load < receiver.load then false
  else if receiver.load < sibling.load then true
  else if sibling.active_threads ≤ receiver.active_threads then false
  else true

/-- One decision of the `core pairs` branch of
`CPU.load_balance_threads_among_runqueues` (lines 405-435): pick the busiest
core of the pair; give up if it has at most one active thread; otherwise move
its lightest thread to the receiving core exactly when the donor's load after
the move, rounded to 5 decimals, is still at least the receiver's load after
the move, rounded to 5 decimals. -/
def pairBalanceMoves (receiver sibling : CoreState) : Bool :=
  let busiest := if busiestIsSibling receiver sibling then sibling else receiver
  if busiest.active_threads ≤ 1 then false
  else
    let l := busiest.lightest_thread_load
    let localNewLoad := receiver.load + l
    let busiestNewLoad := busiest.load - l
    decide (roundTo5 localNewLoad ≤ roundTo5 busiestNewLoad) &&
      decide (1 < busiest.active_threads)

/-! ## Least-fit placement (`perfsim/placement/least_fit.py`)

A host is summarised by the five resource dimensions the scorer reads
(`available` is `get_available()`, `capacity` is the capacity or the NIC
bandwidth) plus its name and the number of replicas already placed on it.
The `blkio` dimension is called `blk` here. -/

structure ResView where
  available : ℚ
  capacity : ℚ
deriving DecidableEq, Repr

structure HostState where
  name : String
  cpu : ResView
  ram : ResView
  nic_in : ResView
  nic_out : ResView
  blk : ResView
  replicas : ℕ
deriving DecidableEq, Repr

/-- The per-replica resource requests read by the scorer
(`replica.microservice.*`). -/
structure MicroserviceRequests where
  cpu_requests : ℚ
  cpu_limits : ℚ
  memory_requests : ℚ
  ingress_bw : ℚ
  egress_bw : ℚ
  blk_capacity : ℚ
deriving DecidableEq, Repr

structure LeastFitWeights where
  w_cpu : ℚ
  w_mem : ℚ
  w_ingress : ℚ
  w_egress : ℚ
  w_blk : ℚ
deriving DecidableEq, Repr

/-- `LeastFit.least_fit_score`: the requested amount is clamped to the host's
capacity before scoring. -/
def least_fit_score (available capacity requested weight : ℚ) : ℚ :=
  let requested' := if capacity < requested then capacity else requested
  (100 - ((available - requested') * (100 / capacity))) * weight

/-- `LeastFit._calculate_host_score_for_placing_replica`: the five weighted
scores summed and normalized by the sum of the weights. -/
def calculate_host_score (w : LeastFitWeights) (h : HostState)
    (r : MicroserviceRequests) : ℚ :=
  (least_fit_score h.cpu.available h.cpu.capacity r.cpu_requests w.w_cpu +
   least_fit_score h.ram.available h.ram.capacity r.memory_requests w.w_mem +
   least_fit_score h.nic_in.available h.nic_in.capacity r.ingress_bw w.w_ingress +
   least_fit_score h.nic_out.available h.nic_out.capacity r.egress_bw w.w_egress +
   least_fit_score h.blk.available h.blk.capacity r.blk_capacity w.w_blk) /
  (w.w_cpu + w.w_mem + w.w_ingress + w.w_egress + w.w_blk)

/-- `Host.is_replica_placeable_on_host_from_resource_perspective`: only CPU
(with the best-effort escape), RAM and blkio residuals are checked; the NIC
checks are commented out in the source. -/
def is_replica_placeable (h : HostState) (r : MicroserviceRequests) : Bool :=
  (decide (r.cpu_requests ≤ h.cpu.available) ||
    (decide (r.cpu_requests = -1) && decide (r.cpu_limits = -1))) &&
  decide (r.memory_requests ≤ h.ram.available) &&
  decide (r.blk_capacity ≤ h.blk.available)

/-- The filter applied inside the `reschedule` loop: the host name must not be
anti-affine and the resources must suffice. -/
def hostQualifies (antiNames : List String) (r : MicroserviceRequests)
    (h : HostState) : Bool :=
  !(antiNames.contains h.name) && is_replica_placeable h r

/-- One step of the running minimum in `LeastFit.reschedule` (lines 108-119):
a strictly lower score replaces the incumbent; an equal score replaces it only
when the candidate has strictly fewer placed replicas. -/
def leastFitFold (w : LeastFitWeights) (r : MicroserviceRequests)
    (best : Option (HostState × ℚ)) (h : HostState) : Option (HostState × ℚ) :=
  match best with
  | none => some (h, calculate_host_score w h r)
  | some (b, sb) =>
    let s := calculate_host_score w h r
    if s < sb then some (h, s)
    else if s = sb ∧ h.replicas < b.replicas then some (h, sb)
    else some (b, sb)

/-- The selection of `LeastFit.reschedule` for a single replica: walk the
affinity-filtered host list, keep the running minimum over qualifying hosts,
and raise `ResourceNotAvailableError` when no host qualified. -/
def leastFitSelect (w : LeastFitWeights) (r : MicroserviceRequests)
    (antiNames : List String) (hosts : List HostState) : Except String HostState :=
  let best := hosts.foldl
    (fun best h => if hostQualifies antiNames r h then leastFitFold w r best h else best) none
  match best with
  | none => .error "ResourceNotAvailableError: Available hosts are not enough to place replica!"
  | some (b, _) => .ok b

/-- Modelled from the claim text for C7 (not from the source): the weighted
score `Σ w_r * 100 * (requested_r / capacity_r - available_r / capacity_r)`. -/
def spec_weighted_score (w : LeastFitWeights) (h : HostState)
    (r : MicroserviceRequests) : ℚ :=
  w.w_cpu * 100 * (r.cpu_requests / h.cpu.capacity - h.cpu.available / h.cpu.capacity) +
  w.w_mem * 100 * (r.memory_requests / h.ram.capacity - h.ram.available / h.ram.capacity) +
  w.w_ingress * 100 * (r.ingress_bw / h.nic_in.capacity - h.nic_in.available / h.nic_in.capacity) +
  w.w_egress * 100 * (r.egress_bw / h.nic_out.capacity - h.nic_out.available / h.nic_out.capacity) +
  w.w_blk * 100 * (r.blk_capacity / h.blk.capacity - h.blk.available / h.blk.capacity)

/-! ## Run-queue share recomputation (`perfsim/equipments/run_queue.py`)

A thread is modelled by its owning process (whose `cpu_requests` /
`cpu_limits` are the microservice values that drive the QoS predicates of
`microservice.py` and `Process.get_cpu_request_per_thread`) and its current
`cpu_requests_share`.  The QoS partitions (`guaranteed_active_threads`,
`burstable_active_threads`, ...) are the sublists of the run queue selected by
the QoS predicates, and each `ThreadSet.sum_cpu_requests` — which the source
maintains incrementally through the `cpu_requests_share` setter, exactly — is
the sum of the current shares of the partition's members.  Python set
iteration order is modelled as run-queue list order. -/

structure Process where
  cpu_requests : ℚ
  cpu_limits : ℚ
  active_threads_count : ℕ
deriving DecidableEq, Repr

/-- `Microservice.is_best_effort`: `cpu_limits == cpu_requests == -1`. -/
def Process.is_best_effort (p : Process) : Bool :=
  decide (p.cpu_limits = p.cpu_requests) && decide (p.cpu_requests = -1)

/-- `Microservice.is_guaranteed`: `cpu_limits == cpu_requests != -1`. -/
def Process.is_guaranteed (p : Process) : Bool :=
  decide (p.cpu_limits = p.cpu_requests) && decide (¬p.cpu_requests = -1)

/-- `Microservice.is_burstable`: `cpu_limits != cpu_requests and cpu_requests != -1`. -/
def Process.is_burstable (p : Process) : Bool :=
  decide (¬p.cpu_limits = p.cpu_requests) && decide (¬p.cpu_requests = -1)

/-- `Microservice.is_unlimited_burstable`. -/
def Process.is_unlimited_burstable (p : Process) : Bool :=
  decide (¬p.cpu_limits = p.cpu_requests) && decide (¬p.cpu_requests = -1) &&
    decide (p.cpu_limits = -1)

/-- `Microservice.is_limited_burstable`. -/
def Process.is_limited_burstable (p : Process) : Bool :=
  decide (¬p.cpu_limits = p.cpu_requests) && decide (¬p.cpu_limits = -1)

/-- `Process.get_cpu_request_per_thread`: `none` models the `None` returned
for a process without active threads (on which `assign_cpu_requests_share`
raises) and the unreachable final `raise`. -/
def Process.get_cpu_request_per_thread (p : Process) (maxCpu : ℚ) : Option ℚ :=
  if p.active_threads_count = 0 then none
  else
    let n : ℚ := (p.active_threads_count : ℚ)
    let sharePerThread :=
      if p.is_unlimited_burstable || p.is_guaranteed then some (p.cpu_requests / n)
      else if p.is_limited_burstable then some (p.cpu_limits / n)
      else if p.is_best_effort then some (maxCpu / n)
      else none
    sharePerThread.map (fun s => min s maxCpu)

structure RQThread where
  process : Process
  cpu_requests_share : ℚ
deriving DecidableEq, Repr

/-- `RunQueue.assign_cpu_requests_share`: the share is capped at
`core.cpu.max_cpu_requests`. -/
def assign_cpu_requests_share (maxCpu v : ℚ) : ℚ :=
  if v ≤ maxCpu then v else maxCpu

/-- The `sum_cpu_requests` of the `ThreadSet` selected by a QoS predicate. -/
def sumSharesOf (pred : Process → Bool) (ts : List RQThread) : ℚ :=
  ((ts.filter (fun t => pred t.process)).map (fun t => t.cpu_requests_share)).sum

/-- One of the first two loops of `recalculate_cpu_requests_shares`: every
thread of the selected QoS partition is assigned its per-thread request. -/
def assignRequestsLoop (maxCpu : ℚ) (pred : Process → Bool) :
    List RQThread → Except String (List RQThread)
  | [] => .ok []
  | t :: rest =>
    if pred t.process then
      match t.process.get_cpu_request_per_thread maxCpu with
      | none => .error "CPU requests cannot be None"
      | some r =>
        match assignRequestsLoop maxCpu pred rest with
        | .error e => .error e
        | .ok rest' =>
          .ok ({ t with cpu_requests_share := assign_cpu_requests_share maxCpu r } :: rest')
    else
      match assignRequestsLoop maxCpu pred rest with
      | .error e => .error e
      | .ok rest' => .ok (t :: rest')

/-- The burstable-unlimited loop of `recalculate_cpu_requests_shares`
(lines 185-188): each unlimited-burstable thread receives
`remaining * (request / sB)` on top of its current share, where `sB` is
`burstable_active_threads.sum_cpu_requests` at that moment — the running sum
of the shares of ALL burstable threads, which the share setter updates after
every assignment (carried here as the accumulator).  A zero sum is a Python
`ZeroDivisionError`. -/
def burstableUnlimitedLoop (maxCpu remaining : ℚ) :
    List RQThread → ℚ → Except String (List RQThread)
  | [], _ => .ok []
  | t :: rest, sB =>
    if t.process.is_unlimited_burstable then
      if sB = 0 then .error "ZeroDivisionError: division by zero"
      else
        match t.process.get_cpu_request_per_thread maxCpu with
        | none => .error "CPU requests cannot be None"
        | some req =>
          let newShare :=
            assign_cpu_requests_share maxCpu (t.cpu_requests_share + remaining * (req / sB))
          match burstableUnlimitedLoop maxCpu remaining rest
              (sB + (newShare - t.cpu_requests_share)) with
          | .error e => .error e
          | .ok rest' => .ok ({ t with cpu_requests_share := newShare } :: rest')
    else
      match burstableUnlimitedLoop maxCpu remaining rest sB with
      | .error e => .error e
      | .ok rest' => .ok (t :: rest')

/-- The final best-effort loop: every best-effort thread is assigned the fair
share of what is still remaining. -/
def bestEffortAssign (maxCpu fair : ℚ) (ts : List RQThread) : List RQThread :=
  ts.map (fun t =>
    if t.process.is_best_effort then
      { t with cpu_requests_share := assign_cpu_requests_share maxCpu fair }
    else t)

/-- `RunQueue.recalculate_cpu_requests_shares` (lines 162-198). -/
def recalculate_cpu_requests_shares (maxCpu : ℚ) (ts : List RQThread) :
    Except String (List RQThread) :=
  if ts.length = 0 then .ok ts
  else
    match assignRequestsLoop maxCpu Process.is_guaranteed ts with
    | .error e => .error e
    | .ok ts1 =>
      match assignRequestsLoop maxCpu Process.is_burstable ts1 with
      | .error e => .error e
      | .ok ts2 =>
        let remaining := maxCpu -
          (sumSharesOf Process.is_guaranteed ts2 + sumSharesOf Process.is_burstable ts2)
        match burstableUnlimitedLoop maxCpu remaining ts2
            (sumSharesOf Process.is_burstable ts2) with
        | .error e => .error e
        | .ok ts3 =>
          let remaining2 := remaining - sumSharesOf Process.is_unlimited_burstable ts3
          let beCount := (ts3.filter (fun t => t.process.is_best_effort)).length
          if 0 < remaining2 ∧ 0 < beCount then
            .ok (bestEffortAssign maxCpu (remaining2 / (beCount : ℚ)) ts3)
          else
            .ok ts3

/-- The sum of the per-thread requests of the burstable-unlimited threads. -/
def sumRequestsOfUnlimited (maxCpu : ℚ) (ts : List RQThread) : ℚ :=
  ((ts.filter (fun t => t.process.is_unlimited_burstable)).map
    (fun t => (t.process.get_cpu_request_per_thread maxCpu).getD 0)).sum

/-- Modelled from the claim text for C4 (not from the source): after the
guaranteed and burstable assignments, a burstable-unlimited thread should end
with its per-thread request plus
`R * request(t) / (sum of requests of the burstable-unlimited threads)`. -/
def claimUnlimitedShare (maxCpu R : ℚ) (ts2 : List RQThread) (t : RQThread) : ℚ :=
  t.cpu_requests_share +
    R * ((t.process.get_cpu_request_per_thread maxCpu).getD 0) /
      sumRequestsOfUnlimited maxCpu ts2

/-- Modelled from the amended claim for C4: the extras are handed out
sequentially over the `(request, current share)` pairs of the
burstable-unlimited threads in iteration order; each extra is
`R * request / S`, where `S` starts at the burstable partition's share sum
and grows by the net share increase granted so far, and the new share is
capped at the core maximum. -/
def amendedUnlimitedShares (maxCpu R : ℚ) : List (ℚ × ℚ) → ℚ → List ℚ
  | [], _ => []
  | (req, old) :: rest, s =>
    let nw := assign_cpu_requests_share maxCpu (old + R * (req / s))
    nw :: amendedUnlimitedShares maxCpu R rest (s + (nw - old))

/-- The per-element effect of `assignRequestsLoop`: a thread of the selected
QoS partition gets its per-thread request (capped), any other thread is left
alone. -/
def assignRequestShare (maxCpu : ℚ) (pred : Process → Bool) (t : RQThread) : RQThread :=
  if pred t.process then
    ⟨t.process, assign_cpu_requests_share maxCpu
      ((t.process.get_cpu_request_per_thread maxCpu).getD 0)⟩
  else t

/-- Two run-queue threads agreeing on their process and, unless best-effort,
on their share (the relation preserved between the first and second run of
the share recomputation). -/
def relNBE (t u : RQThread) : Prop :=
  t.process = u.process ∧
  (t.process.is_best_effort = false → t.cpu_requests_share = u.cpu_requests_share)

/-- The lexicographic preference order of the least-fit selection: strictly
lower code score, or equal score and at most as many placed replicas. -/
def scoreLe (w : LeastFitWeights) (r : MicroserviceRequests) (a b : HostState) : Prop :=
  calculate_host_score w a r < calculate_host_score w b r ∨
    (calculate_host_score w a r = calculate_host_score w b r ∧ a.replicas ≤ b.replicas)

/-- A concrete host for exercising the placement policy: egress-NIC capacity
10 with everything else at 100, no replicas placed yet. -/
def hostA : HostState := ⟨"A", ⟨100, 100⟩, ⟨100, 100⟩, ⟨100, 100⟩, ⟨10, 10⟩, ⟨100, 100⟩, 0⟩

/-- A second concrete host, identical except for an egress-NIC capacity of 50. -/
def hostB : HostState := ⟨"B", ⟨100, 100⟩, ⟨100, 100⟩, ⟨100, 100⟩, ⟨50, 50⟩, ⟨100, 100⟩, 0⟩

/-- Weights that score only the egress-NIC dimension. -/
def wEgressOnly : LeastFitWeights := ⟨0, 0, 0, 1, 0⟩

/-- A replica that requests only egress bandwidth (100, above both hosts'
egress capacities). -/
def rEgress100 : MicroserviceRequests := ⟨0, 0, 0, 0, 100, 0⟩

lemma count_set_of_ne (l : List SubchainStatus) (i : ℕ) (h : i < l.length)
    (v : SubchainStatus) (hcur : l.get ⟨i, h⟩ ≠ .concluded) (hv : v ≠ .concluded) :
    (l.set i v).count .concluded = l.count .concluded := by
  rw [List.count_set v .concluded l i h]
  have h1 : (l[i] == SubchainStatus.concluded) = false := by
    simpa using hcur
  have h2 : (v == SubchainStatus.concluded) = false := by simpa using hv
  simp [h1, h2]

lemma count_set_concluded (l : List SubchainStatus) (i : ℕ) (h : i < l.length)
    (hcur : l.get ⟨i, h⟩ ≠ .concluded) :
    (l.set i .concluded).count .concluded = l.count .concluded + 1 := by
  rw [List.count_set .concluded .concluded l i h]
  have h1 : (l[i] == SubchainStatus.concluded) = false := by
    simpa using hcur
  simp [h1]

lemma not_completed_of_get_ne (st : RequestState) (hinv : RequestInv st) (i : ℕ)
    (h : i < st.subchains_status.length)
    (hne : st.subchains_status.get ⟨i, h⟩ ≠ .concluded) :
    st.status ≠ "COMPLETED" := by
  intro hc
  obtain ⟨hcount, _, hiff, _⟩ := hinv
  have hlen : st.subchains_status.count .concluded = st.subchains_status.length := by
    rw [← hcount]; exact hiff.1 hc
  have hall := List.count_eq_length.1 hlen
  exact hne (hall _ (st.subchains_status.get_mem _ _)).symm

lemma requestInv_finalize (st : RequestState) (i : ℕ) (now : ℚ)
    (hinv : RequestInv st) (hi : i < st.subchains_status.length)
    (hne : st.subchains_status.get? i ≠ some .concluded)
    (hnow : st.arrival_time ≤ now) :
    RequestInv (st.finalize_subchain i now) := by
  have hget : st.subchains_status.get? i = some (st.subchains_status.get ⟨i, hi⟩) :=
    List.get?_eq_get hi
  have hgne : st.subchains_status.get ⟨i, hi⟩ ≠ .concluded := by
    intro h; exact hne (by rw [hget, h])
  have hnc : st.status ≠ "COMPLETED" := not_completed_of_get_ne st hinv i hi hgne
  obtain ⟨hcount, hlen, hiff, _⟩ := hinv
  unfold RequestState.finalize_subchain
  rw [hget]
  simp only [ne_eq, hgne, not_false_iff, if_true]
  set l' := st.subchains_status.set i .concluded with hl'
  have hcount' : l'.count .concluded = st.subchains_status.count .concluded + 1 :=
    count_set_concluded _ _ hi hgne
  have hlen' : l'.length = st.subchains_status.length := List.length_set ..
  by_cases hdone : st.completed_subchains_count + 1 = l'.length
  · simp only [hdone, if_pos, RequestState.conclude]
    refine ⟨?_, ?_, ?_, ?_⟩
    · simpa [hcount', hdone] using by omega
    · simpa [hlen'] using hlen
    · simp [hdone]
    · intro _; exact ⟨now, rfl, rfl, hnow⟩
  · simp only [hdone, if_neg, if_false]
    refine ⟨?_, ?_, ?_, ?_⟩
    · simp only [hcount', ← hcount]
    · simpa [hlen'] using hlen
    · constructor
      · intro hc; exact absurd hc hnc
      · intro hc; exact absurd hc hdone
    · intro hc; exact absurd hc hnc

lemma requestInv_markInTransmission (st : RequestState) (i : ℕ)
    (hinv : RequestInv st) (hi : i < st.subchains_status.length)
    (hne : st.subchains_status.get? i ≠ some .concluded) :
    RequestInv { st with subchains_status := st.subchains_status.set i .inTransmission } := by
  have hget : st.subchains_status.get? i = some (st.subchains_status.get ⟨i, hi⟩) :=
    List.get?_eq_get hi
  have hgne : st.subchains_status.get ⟨i, hi⟩ ≠ .concluded := by
    intro h; exact hne (by rw [hget, h])
  obtain ⟨hcount, hlen, hiff, hcomp⟩ := hinv
  have hc' : (st.subchains_status.set i .inTransmission).count .concluded =
      st.subchains_status.count .concluded :=
    count_set_of_ne _ _ hi _ hgne (by intro h; cases h)
  exact ⟨by simpa [hc'] using hcount,
         by simpa [List.length_set] using hlen,
         by simpa [List.length_set, hc'] using hiff,
         hcomp⟩

lemma requestInv_finishTransmission (st : RequestState) (i : ℕ)
    (hinv : RequestInv st) (hi : i < st.subchains_status.length)
    (heq : st.subchains_status.get? i = some .inTransmission) :
    RequestInv { st with subchains_status := st.subchains_status.set i .initMicroservice,
                         status := "MICROSERVICE" } := by
  have hget : st.subchains_status.get? i = some (st.subchains_status.get ⟨i, hi⟩) :=
    List.get?_eq_get hi
  have hgeq : st.subchains_status.get ⟨i, hi⟩ = .inTransmission := by
    have := hget.symm.trans heq
    exact Option.some.inj this
  have hgne : st.subchains_status.get ⟨i, hi⟩ ≠ .concluded := by rw [hgeq]; intro h; cases h
  obtain ⟨hcount, hlen, hiff, _⟩ := hinv
  have hc' : (st.subchains_status.set i .initMicroservice).count .concluded =
      st.subchains_status.count .concluded :=
    count_set_of_ne _ _ hi _ hgne (by intro h; cases h)
  have hcountlt : st.completed_subchains_count ≠ st.subchains_status.length := by
    intro h
    have hall := List.count_eq_length.1 (hcount.symm.trans h)
    exact hgne (hall _ (st.subchains_status.get_mem _ _)).symm
  refine ⟨by simpa [hc'] using hcount,
          by simpa [List.length_set] using hlen,
          ?_, ?_⟩
  · simp only [List.length_set]
    constructor
    · intro h; exact absurd ((by decide : ("MICROSERVICE" : String) = "COMPLETED" ↔ False).1 h) id
    · intro h; exact absurd h hcountlt
  · intro h; exact absurd ((by decide : ("MICROSERVICE" : String) = "COMPLETED" ↔ False).1 h) id

lemma requestInv_applyOps : ∀ (ops : List RequestOp) (st : RequestState),
    RequestInv st → legalOps st ops → RequestInv (st.applyOps ops)
  | [], _, hinv, _ => hinv
  | op :: rest, st, hinv, hlegal => by
    have h : RequestState.applyOps st (op :: rest) =
        RequestState.applyOps (st.applyOp op) rest := rfl
    rw [h]
    obtain ⟨hop, hrest⟩ := hlegal
    refine requestInv_applyOps rest _ ?_ hrest
    cases op with
    | finalize i now => exact requestInv_finalize st i now hinv hop.1 hop.2.1 hop.2.2
    | markInTransmission i => exact requestInv_markInTransmission st i hinv hop.1 hop.2
    | finishTransmission i => exact requestInv_finishTransmission st i hinv hop.1 hop.2

lemma applyOp_statuses_length (st : RequestState) (op : RequestOp) :
    (st.applyOp op).subchains_status.length = st.subchains_status.length := by
  cases op with
  | finalize i now =>
    simp only [RequestState.applyOp]
    unfold RequestState.finalize_subchain
    cases hg : st.subchains_status.get? i with
    | none => rfl
    | some s =>
      dsimp only
      split
      · split
        · simp [RequestState.conclude, List.length_set]
        · simp [List.length_set]
      · split
        · simp [RequestState.conclude]
        · simp
  | markInTransmission i => simp [RequestState.applyOp, List.length_set]
  | finishTransmission i => simp [RequestState.applyOp, List.length_set]

lemma applyOps_statuses_length : ∀ (ops : List RequestOp) (st : RequestState),
    (st.applyOps ops).subchains_status.length = st.subchains_status.length
  | [], _ => rfl
  | op :: rest, st => by
    have h : RequestState.applyOps st (op :: rest) =
        RequestState.applyOps (st.applyOp op) rest := rfl
    rw [h, applyOps_statuses_length rest, applyOp_statuses_length]

lemma requestInv_init (n : ℕ) (arrival : ℚ) (hn : 0 < n) :
    RequestInv (RequestState.init n arrival) := by
  refine ⟨?_, ?_, ?_, ?_⟩
  · simp [RequestState.init, List.count_replicate]
  · simpa [RequestState.init] using hn
  · simp only [RequestState.init]
    constructor
    · intro h; exact absurd ((by decide : ("IN_PROGRESS" : String) = "COMPLETED" ↔ False).1 h) id
    · intro h
      simp only [List.length_replicate] at h
      omega
  · intro h; exact absurd ((by decide : ("IN_PROGRESS" : String) = "COMPLETED" ↔ False).1 h) id

/-- C10: `Resource.get_utilization` returns `capacity / reserved` — the
inverse of the usual utilization ratio — so on every resource whose reserved
amount is 0, in particular on every freshly constructed resource, the call
fails with a division-by-zero error instead of returning a value. -/
theorem resource_get_utilization_inverted_and_fails_on_fresh
    (t n u : String) (b : Bool) (c : ℚ) (r : Resource) (h : r.reserved ≠ 0) :
    (Resource.init t n b u c).reserved = 0 ∧
    (Resource.init t n b u c).get_utilization = none ∧
    r.get_utilization = some (r.capacity / r.reserved) := by
  refine ⟨rfl, rfl, ?_⟩
  simp [Resource.get_utilization, h]

theorem resource_get_utilization_witness :
    (Resource.init "cpu" "r" false "millicores" 1000).get_utilization = none ∧
    ({ rtype := "ram", name := "m", throttleable := false, unit_of_measure := "bytes",
       capacity := 6, reserved := 2 } : Resource).get_utilization = some 3 := by
  have h := resource_get_utilization_inverted_and_fails_on_fresh
    "cpu" "r" "millicores" false 1000
    ({ rtype := "ram", name := "m", throttleable := false, unit_of_measure := "bytes",
       capacity := 6, reserved := 2 } : Resource) (by norm_num)
  refine ⟨h.2.1, ?_⟩
  rw [h.2.2]
  norm_num

/-- C3 counterexample: on an infinite estimated duration the driver raises
exactly when the previous event WAS `"THREAD GEN"`; when the previous event
is `"RUN THREADS"` (≠ THREAD-GEN) it does not raise and schedules
`"THREAD GEN"` next — the opposite of the claim on both points. -/
theorem exec_time_estimation_inf_counterexample :
    execTimeEstimationNextEvent none "RUN THREADS" = .ok "THREAD GEN" ∧
    execTimeEstimationNextEvent none "THREAD GEN" =
      .error "Next event can't be inf! Probably a bug!" :=
  ⟨rfl, rfl⟩

/-- C3 amended: in EXEC-TIME-EST an infinite duration raises the fatal error
iff the previous event was THREAD-GEN; with any other previous event the
driver continues with next event THREAD-GEN, and a finite duration always
leads to RUN-THREADS. -/
theorem exec_time_estimation_inf_raises_iff_prev_thread_gen (prev : String) :
    (execTimeEstimationNextEvent none prev =
        .error "Next event can't be inf! Probably a bug!" ↔ prev = "THREAD GEN") ∧
    (prev ≠ "THREAD GEN" → execTimeEstimationNextEvent none prev = .ok "THREAD GEN") ∧
    (∀ q : ℚ, execTimeEstimationNextEvent (some q) prev = .ok "RUN THREADS") := by
  unfold execTimeEstimationNextEvent
  by_cases h : prev = "THREAD GEN" <;> simp [h]

theorem exec_time_estimation_witness :
    execTimeEstimationNextEvent none "RUN THREADS" = .ok "THREAD GEN" ∧
    execTimeEstimationNextEvent (some 7) "RUN THREADS" = .ok "RUN THREADS" := by
  have h := exec_time_estimation_inf_raises_iff_prev_thread_gen "RUN THREADS"
  exact ⟨h.2.1 (by decide), h.2.2 7⟩

/-- C1: over any driver-legal sequence of operations on a freshly created
request, the request's status is `"COMPLETED"` exactly when the
completed-subchains counter equals the number of subchains, equivalently when
every subchain status is `"CONCLUDED"`; and a completed request records a
completion time `c ≥ arrival` with `latency = c - arrival`. -/
theorem request_completed_iff_all_subchains_concluded
    (n : ℕ) (arrival : ℚ) (ops : List RequestOp) (hn : 0 < n)
    (hlegal : legalOps (RequestState.init n arrival) ops) :
    (((RequestState.init n arrival).applyOps ops).status = "COMPLETED" ↔
       ((RequestState.init n arrival).applyOps ops).completed_subchains_count = n) ∧
    (((RequestState.init n arrival).applyOps ops).status = "COMPLETED" ↔
       ∀ s ∈ ((RequestState.init n arrival).applyOps ops).subchains_status,
         s = SubchainStatus.concluded) ∧
    (((RequestState.init n arrival).applyOps ops).status = "COMPLETED" →
       ∃ c, ((RequestState.init n arrival).applyOps ops).completion_time = some c ∧
         ((RequestState.init n arrival).applyOps ops).latency = c - arrival ∧
         arrival ≤ c) := by
  have hinv := requestInv_applyOps ops _ (requestInv_init n arrival hn) hlegal
  have hlen0 : ((RequestState.init n arrival).applyOps ops).subchains_status.length = n := by
    have := applyOps_statuses_length ops (RequestState.init n arrival)
    simpa [RequestState.init] using this
  have harr : ((RequestState.init n arrival).applyOps ops).arrival_time = arrival := by
    have : ∀ (l : List RequestOp) (st : RequestState),
        (st.applyOps l).arrival_time = st.arrival_time := by
      intro l
      induction l with
      | nil => intro st; rfl
      | cons op rest ih =>
        intro st
        have h : RequestState.applyOps st (op :: rest) =
            RequestState.applyOps (st.applyOp op) rest := rfl
        rw [h, ih]
        cases op with
        | finalize i now =>
          simp only [RequestState.applyOp]
          unfold RequestState.finalize_subchain
          cases hg : st.subchains_status.get? i with
          | none => rfl
          | some s =>
            dsimp only
            split
            · split
              · simp [RequestState.conclude]
              · simp
            · split
              · simp [RequestState.conclude]
              · simp
        | markInTransmission i => rfl
        | finishTransmission i => rfl
    exact this ops _
  obtain ⟨hcount, hpos, hiff, hcomp⟩ := hinv
  refine ⟨?_, ?_, ?_⟩
  · rw [hiff, hlen0]
  · rw [hiff, hcount]
    constructor
    · intro h s hs
      exact (List.count_eq_length.1 h _ hs).symm
    · intro h
      exact List.count_eq_length.2 (fun b hb => (h b hb).symm)
  · intro h
    obtain ⟨c, h1, h2, h3⟩ := hcomp h
    exact ⟨c, h1, by rwa [harr] at h2, by rwa [harr] at h3⟩

theorem request_completed_witness :
    (((RequestState.init 2 3).applyOps
        [RequestOp.markInTransmission 1, RequestOp.finishTransmission 1,
         RequestOp.finalize 0 5, RequestOp.finalize 1 7]).status = "COMPLETED" ↔
       ((RequestState.init 2 3).applyOps
        [RequestOp.markInTransmission 1, RequestOp.finishTransmission 1,
         RequestOp.finalize 0 5, RequestOp.finalize 1 7]).completed_subchains_count = 2) ∧
    ((RequestState.init 2 3).applyOps
        [RequestOp.markInTransmission 1, RequestOp.finishTransmission 1,
         RequestOp.finalize 0 5, RequestOp.finalize 1 7]).status = "COMPLETED" := by
  have h := request_completed_iff_all_subchains_concluded 2 3
    [RequestOp.markInTransmission 1, RequestOp.finishTransmission 1,
     RequestOp.finalize 0 5, RequestOp.finalize 1 7]
    (by norm_num)
    (by
      refine ⟨⟨by decide, by decide⟩, ⟨by decide, by decide⟩,
        ⟨by decide, by decide, by decide⟩, ⟨by decide, by decide, by decide⟩, trivial⟩)
  exact ⟨h.1, by decide⟩

/-- C6: when the receiving core inspected at the `core pairs` domain is idle
(no active threads, zero run-queue load) and the sibling's load is
nonnegative, the balancing step moves the sibling's lightest thread to the
receiving core exactly when (i) the sibling has more than one runnable thread
and (ii) the sibling's load after the move, rounded to 5 decimals, is still
at least the receiving core's load after the move, rounded to 5 decimals. -/
theorem pair_balance_move_iff (receiver sibling : CoreState)
    (hidle : receiver.active_threads = 0) (hload : receiver.load = 0)
    (hsib : 0 ≤ sibling.load) :
    pairBalanceMoves receiver sibling = true ↔
      (1 < sibling.active_threads ∧
        roundTo5 (receiver.load + sibling.lightest_thread_load) ≤
          roundTo5 (sibling.load - sibling.lightest_thread_load)) := by
  have hnotlt : ¬ sibling.load < receiver.load := by
    rw [hload]; exact not_lt.mpr hsib
  by_cases hpos : receiver.load < sibling.load
  · have h1 : busiestIsSibling receiver sibling = true := by
      unfold busiestIsSibling
      rw [if_neg hnotlt, if_pos hpos]
    unfold pairBalanceMoves
    rw [h1]
    by_cases h2 : sibling.active_threads ≤ 1
    · simp only [if_true, h2, if_pos]
      constructor
      · intro h; cases h
      · rintro ⟨h, -⟩; omega
    · simp only [if_true, if_neg h2, Bool.and_eq_true, decide_eq_true_eq]
      constructor
      · rintro ⟨ha, hb⟩; exact ⟨hb, ha⟩
      · rintro ⟨ha, hb⟩; exact ⟨hb, ha⟩
  · have hz : sibling.load = receiver.load := le_antisymm (not_lt.mp hpos) (not_lt.mp hnotlt)
    by_cases hact : sibling.active_threads ≤ receiver.active_threads
    · have hsact : sibling.active_threads = 0 := by omega
      have h1 : busiestIsSibling receiver sibling = false := by
        unfold busiestIsSibling
        rw [if_neg hnotlt, if_neg hpos, if_pos hact]
      unfold pairBalanceMoves
      rw [h1]
      simp only [Bool.false_eq_true, if_false, hidle, Nat.le_refl, zero_le, if_pos]
      constructor
      · intro h; cases h
      · rintro ⟨h, -⟩; omega
    · have h1 : busiestIsSibling receiver sibling = true := by
        unfold busiestIsSibling
        rw [if_neg hnotlt, if_neg hpos, if_neg hact]
      unfold pairBalanceMoves
      rw [h1]
      by_cases h2 : sibling.active_threads ≤ 1
      · simp only [if_true, h2, if_pos]
        constructor
        · intro h; cases h
        · rintro ⟨h, -⟩; omega
      · simp only [if_true, if_neg h2, Bool.and_eq_true, decide_eq_true_eq]
        constructor
        · rintro ⟨ha, hb⟩; exact ⟨hb, ha⟩
        · rintro ⟨ha, hb⟩; exact ⟨hb, ha⟩

theorem pair_balance_move_witness :
    pairBalanceMoves ⟨0, 0, 0⟩ ⟨10, 2, 4⟩ = true ∧
    pairBalanceMoves ⟨0, 0, 0⟩ ⟨10, 1, 10⟩ = false := by
  constructor
  · exact (pair_balance_move_iff ⟨0, 0, 0⟩ ⟨10, 2, 4⟩ rfl rfl (by norm_num)).2
      ⟨by norm_num, by norm_num [roundTo5, roundHalfEven, Int.fract]⟩
  · have h := pair_balance_move_iff ⟨0, 0, 0⟩ ⟨10, 1, 10⟩ rfl rfl (by norm_num)
    by_contra hc
    have : pairBalanceMoves ⟨0, 0, 0⟩ ⟨10, 1, 10⟩ = true := by
      revert hc
      cases pairBalanceMoves ⟨0, 0, 0⟩ ⟨10, 1, 10⟩ <;> simp
    have h2 := h.1 this
    exact (by decide : ¬(1 : ℕ) < 1) h2.1

lemma observerKeys_addObserverToKey (m : List (String × List ℕ)) (e : String) (oid : ℕ) :
    (addObserverToKey m e oid).map Prod.fst = m.map Prod.fst := by
  induction m with
  | nil => rfl
  | cons p rest ih =>
    simp only [addObserverToKey, List.map_cons] at *
    by_cases h : p.1 = e
    · simp [h, ih]
    · simp [h, ih]

lemma attachObserverGo_ok_iff : ∀ (events : List String) (st : Observable) (oid : ℕ),
    (∀ k ∈ st.observerKeys, k ∈ st.registered_events) →
    (exceptOk (attachObserverGo st oid events) = true ↔
      ∀ e ∈ events, e ∈ st.registered_events)
  | [], st, oid, _ => by simp [attachObserverGo, exceptOk]
  | e :: rest, st, oid, hinv => by
    unfold attachObserverGo
    by_cases hk : st.observerKeys.contains e
    · have hkm : e ∈ st.observerKeys := by simpa using hk
      have he : e ∈ st.registered_events := hinv e hkm
      rw [if_pos hk]
      have hinv' : ∀ k ∈ (Observable.mk (addObserverToKey st.observers e oid)
          st.registered_events).observerKeys, k ∈ st.registered_events := by
        intro k hkmem
        apply hinv
        simpa [Observable.observerKeys, observerKeys_addObserverToKey] using hkmem
      rw [attachObserverGo_ok_iff rest _ oid hinv']
      simp [he]
    · rw [if_neg hk]
      by_cases hr : st.registered_events.contains e
      · have he : e ∈ st.registered_events := by simpa using hr
        rw [if_pos hr]
        have hinv' : ∀ k ∈ (Observable.mk ((e, [oid]) :: st.observers)
            st.registered_events).observerKeys, k ∈ st.registered_events := by
          intro k hkmem
          simp only [Observable.observerKeys, List.map_cons, List.mem_cons] at hkmem
          rcases hkmem with h | h
          · rwa [h]
          · exact hinv k h
        rw [attachObserverGo_ok_iff rest _ oid hinv']
        simp [he]
      · have he : e ∉ st.registered_events := by simpa using hr
        rw [if_neg hr]
        simp only [exceptOk, Bool.false_eq_true, false_iff]
        intro hall
        exact he (hall e (by simp))

/-- C9: whenever the observer map's keys are all registered (the invariant the
class maintains, since `attach_observer` is the only place keys are created
and it only creates them for registered names), `attach_observer` succeeds
exactly when every event name the observer subscribes to has previously been
registered via `register_event`; it raises otherwise. -/
theorem attach_observer_succeeds_iff_registered (st : Observable) (obs : EventObserver)
    (hinv : ∀ k ∈ st.observerKeys, k ∈ st.registered_events) :
    exceptOk (st.attach_observer obs) = true ↔
      ∀ e ∈ obs.events, e ∈ st.registered_events :=
  attachObserverGo_ok_iff obs.events st obs.oid hinv

theorem attach_observer_witness :
    exceptOk ((Observable.mk [] ["before_traffic_start"]).attach_observer
      ⟨0, ["before_traffic_start"]⟩) = true ∧
    exceptOk ((Observable.mk [] ["before_traffic_start"]).attach_observer
      ⟨1, ["no_such_event"]⟩) = false := by
  constructor
  · exact (attach_observer_succeeds_iff_registered
      (Observable.mk [] ["before_traffic_start"]) ⟨0, ["before_traffic_start"]⟩
      (by intro k hk; simp [Observable.observerKeys] at hk)).2
      (by intro e he; simpa using he)
  · have h := attach_observer_succeeds_iff_registered
      (Observable.mk [] ["before_traffic_start"]) ⟨1, ["no_such_event"]⟩
      (by intro k hk; simp [Observable.observerKeys] at hk)
    by_contra hc
    have hok : exceptOk ((Observable.mk [] ["before_traffic_start"]).attach_observer
        ⟨1, ["no_such_event"]⟩) = true := by
      revert hc
      cases exceptOk ((Observable.mk [] ["before_traffic_start"]).attach_observer
        ⟨1, ["no_such_event"]⟩) <;> simp
    have := h.1 hok "no_such_event" (by simp)
    simp at this

lemma transmitPayload_cases (pay d bw : ℚ) :
    ((-1 < pay - bw * (d / 1000000000) ∧ pay - bw * (d / 1000000000) < 1) →
       TransmissionState.transmitPayload ⟨false, 0, pay, some bw⟩ d =
         .ok (⟨false, 0, 0, some bw⟩, 0)) ∧
    ((pay - bw * (d / 1000000000) ≤ -1) →
       TransmissionState.transmitPayload ⟨false, 0, pay, some bw⟩ d =
         .error "remaining_payload_size is less than zero! Something is wrong! Probably a bug.") ∧
    ((1 ≤ pay - bw * (d / 1000000000)) →
       TransmissionState.transmitPayload ⟨false, 0, pay, some bw⟩ d =
         .ok (⟨false, 0, pay - bw * (d / 1000000000), some bw⟩,
              (pay - bw * (d / 1000000000)) / bw * 1000000000)) := by
  have hcalc0 : TransmissionState.calculate_transmission_time ⟨false, 0, 0, some bw⟩ = 0 := by
    unfold TransmissionState.calculate_transmission_time
    norm_num
  have hcalcp : ∀ q : ℚ, TransmissionState.calculate_transmission_time ⟨false, 0, q, some bw⟩ =
      q / bw * 1000000000 := by
    intro q
    unfold TransmissionState.calculate_transmission_time
    norm_num
  refine ⟨?_, ?_, ?_⟩
  · intro hsnap
    unfold TransmissionState.transmitPayload
    rw [if_pos hsnap, hcalc0]
  · intro hneg
    unfold TransmissionState.transmitPayload
    rw [if_neg (by rintro ⟨h1, -⟩; dsimp only at h1; linarith), if_pos (by dsimp only; linarith)]
  · intro hbig
    unfold TransmissionState.transmitPayload
    rw [if_neg (by rintro ⟨-, h2⟩; dsimp only at h2; linarith),
        if_neg (by dsimp only; push_neg; linarith), hcalcp]

/-- C2 counterexample: a same-host transmission (`srcEqDst = true`, infinite
bandwidth) with residual latency 5 ns and remaining payload 10 B, transmitted
for 1 ns, returns transmission time 0 — which the driver treats as complete
(`trans_times <= 0` in `Cluster.transmit_requests_in_network`) — while its
residual latency (4) and remaining payload (10) are both still positive,
contradicting the claimed completion condition. -/
theorem transmission_same_host_completion_counterexample :
    TransmissionState.transmit ⟨true, 5, 10, none⟩ 1 =
      .ok (⟨true, 4, 10, none⟩, 0) ∧
    ¬((4 : ℚ) ≤ 0 ∧ (10 : ℚ) ≤ 0) := by
  constructor
  · unfold TransmissionState.transmit
    rw [if_pos (by norm_num), if_neg (by norm_num)]
    dsimp only
    have : TransmissionState.calculate_transmission_time ⟨true, 5 - 1, 10, none⟩ = 0 := by
      unfold TransmissionState.calculate_transmission_time
      norm_num
    rw [this]
    norm_num
  · rintro ⟨h, -⟩
    norm_num at h

/-- C2 amended: for a transmission between distinct hosts with a finite
positive bandwidth, nonnegative residual latency and payload and a
nonnegative duration, `transmit` applies the duration to the residual latency
first (returning early with the payload untouched when the duration does not
exceed the latency); only the excess `duration - latency` debits the payload
by `current_bw * excess / 1e9`; afterwards a payload in `(-1, 1)` is snapped
to exactly 0 and a payload ≤ -1 raises the fatal accounting error; and on
every non-raising call the returned transmission time — the driver's
completion test — is ≤ 0 exactly when both the new residual latency and the
new remaining payload are ≤ 0.  (A same-host transmission instead always
reports transmission time 0; see the counterexample.) -/
theorem transmission_transmit_spec (lat pay Δ bw : ℚ)
    (hb : 0 < bw) (hd : 0 ≤ Δ) (hl : 0 ≤ lat) (hp : 0 ≤ pay) :
    ((0 < lat ∧ Δ ≤ lat →
      TransmissionState.transmit ⟨false, lat, pay, some bw⟩ Δ =
        .ok (⟨false, lat - Δ, pay, some bw⟩, pay / bw * 1000000000 + (lat - Δ)))) ∧
    ((lat < Δ ∨ lat = 0) →
      ((-1 < pay - bw * ((Δ - lat) / 1000000000) ∧ pay - bw * ((Δ - lat) / 1000000000) < 1) →
         TransmissionState.transmit ⟨false, lat, pay, some bw⟩ Δ =
           .ok (⟨false, 0, 0, some bw⟩, 0)) ∧
      ((pay - bw * ((Δ - lat) / 1000000000) ≤ -1) →
         TransmissionState.transmit ⟨false, lat, pay, some bw⟩ Δ =
           .error "remaining_payload_size is less than zero! Something is wrong! Probably a bug.") ∧
      ((1 ≤ pay - bw * ((Δ - lat) / 1000000000)) →
         TransmissionState.transmit ⟨false, lat, pay, some bw⟩ Δ =
           .ok (⟨false, 0, pay - bw * ((Δ - lat) / 1000000000), some bw⟩,
                (pay - bw * ((Δ - lat) / 1000000000)) / bw * 1000000000))) ∧
    (∀ t' time, TransmissionState.transmit ⟨false, lat, pay, some bw⟩ Δ = .ok (t', time) →
      (time ≤ 0 ↔ t'.total_latency ≤ 0 ∧ t'.remaining_payload_size ≤ 0)) := by
  have hearly : 0 < lat → Δ ≤ lat →
      TransmissionState.transmit ⟨false, lat, pay, some bw⟩ Δ =
        .ok (⟨false, lat - Δ, pay, some bw⟩, pay / bw * 1000000000 + (lat - Δ)) := by
    intro h0 hle
    unfold TransmissionState.transmit
    rw [if_pos h0, if_neg (not_lt.mpr hle)]
    dsimp only
    have : TransmissionState.calculate_transmission_time ⟨false, lat - Δ, pay, some bw⟩ =
        pay / bw * 1000000000 + (lat - Δ) := by
      unfold TransmissionState.calculate_transmission_time
      norm_num
    rw [this]
  have hredirect : (lat < Δ ∨ lat = 0) →
      TransmissionState.transmit ⟨false, lat, pay, some bw⟩ Δ =
        TransmissionState.transmitPayload ⟨false, 0, pay, some bw⟩ (Δ - lat) := by
    intro hcase
    unfold TransmissionState.transmit
    rcases hcase with hlt | hz
    · by_cases h0 : 0 < lat
      · rw [if_pos h0, if_pos hlt]
      · have hz : lat = 0 := le_antisymm (not_lt.mp h0) hl
        rw [if_neg (by rw [hz]; exact lt_irrefl 0), hz, sub_zero]
    · rw [if_neg (by rw [hz]; exact lt_irrefl 0), hz, sub_zero]
  refine ⟨fun h => hearly h.1 h.2, ?_, ?_⟩
  · intro hcase
    have heq := hredirect hcase
    have hpc := transmitPayload_cases pay (Δ - lat) bw
    exact ⟨fun h => heq.trans (hpc.1 h), fun h => heq.trans (hpc.2.1 h),
           fun h => heq.trans (hpc.2.2 h)⟩
  · intro t' time hok
    by_cases hA : 0 < lat ∧ Δ ≤ lat
    · rw [hearly hA.1 hA.2] at hok
      obtain ⟨ht', htime⟩ := Prod.ext_iff.mp (Except.ok.inj hok)
      subst htime
      subst ht'
      dsimp only
      constructor
      · intro hle
        have h1 : 0 ≤ pay / bw * 1000000000 := by positivity
        have h2 : 0 ≤ lat - Δ := by linarith [hA.2]
        exact ⟨by linarith, by
          have hz : pay / bw * 1000000000 = 0 := by linarith
          have : pay / bw = 0 := by linarith
          have := (div_eq_zero_iff.mp this).resolve_right (ne_of_gt hb)
          linarith⟩
      · rintro ⟨h1, h2⟩
        have hpz : pay = 0 := le_antisymm h2 hp
        rw [hpz]
        simp only [zero_div, zero_mul, zero_add]
        exact h1
    · have hcase : lat < Δ ∨ lat = 0 := by
        push_neg at hA
        by_cases h0 : 0 < lat
        · exact Or.inl (hA h0)
        · exact Or.inr (le_antisymm (not_lt.mp h0) hl)
      rw [hredirect hcase] at hok
      have hpc := transmitPayload_cases pay (Δ - lat) bw
      by_cases hsnap : -1 < pay - bw * ((Δ - lat) / 1000000000) ∧
          pay - bw * ((Δ - lat) / 1000000000) < 1
      · rw [hpc.1 hsnap] at hok
        obtain ⟨ht', htime⟩ := Prod.ext_iff.mp (Except.ok.inj hok)
        subst htime
        subst ht'
        dsimp only
        norm_num
      · by_cases hbig : 1 ≤ pay - bw * ((Δ - lat) / 1000000000)
        · rw [hpc.2.2 hbig] at hok
          obtain ⟨ht', htime⟩ := Prod.ext_iff.mp (Except.ok.inj hok)
          subst htime
          subst ht'
          dsimp only
          constructor
          · intro hle
            exfalso
            have hppos : (0 : ℚ) < pay - bw * ((Δ - lat) / 1000000000) := by linarith
            have : 0 < (pay - bw * ((Δ - lat) / 1000000000)) / bw * 1000000000 := by positivity
            linarith
          · rintro ⟨-, h2⟩
            linarith
        · exfalso
          have hneg : pay - bw * ((Δ - lat) / 1000000000) ≤ -1 := by
            by_cases hgt : -1 < pay - bw * ((Δ - lat) / 1000000000)
            · push_neg at hsnap
              exact absurd (by linarith [hsnap hgt] : (1 : ℚ) ≤ pay - bw * ((Δ - lat) / 1000000000)) hbig
            · linarith [not_lt.mp hgt]
          rw [hpc.2.1 hneg] at hok
          cases hok

theorem transmission_transmit_witness :
    TransmissionState.transmit ⟨false, 5, 10, some 2⟩ 3 =
      .ok (⟨false, 5 - 3, 10, some 2⟩, 10 / 2 * 1000000000 + (5 - 3)) :=
  (transmission_transmit_spec 5 10 3 2 (by norm_num) (by norm_num) (by norm_num)
    (by norm_num)).1 ⟨by norm_num, by norm_num⟩

/-- C4 counterexample: a run queue with one burstable-unlimited thread
(request 200m, no limit) and one burstable-limited thread (request 100m,
limit 400m) on a 1000m core.  After the per-thread assignments the shares are
200 and 400, so `R = 1000 - 600 = 400`.  The claim predicts the unlimited
thread ends at `200 + R * 200/200 = 600`; the code divides by the whole
burstable partition's share sum (600, including the limited thread) and
yields `200 + 400 * 200/600 = 1000/3`. -/
theorem recalc_unlimited_proportionality_counterexample :
    recalculate_cpu_requests_shares 1000
        [⟨⟨200, -1, 1⟩, 200⟩, ⟨⟨100, 400, 1⟩, 100⟩] =
      .ok [⟨⟨200, -1, 1⟩, 1000 / 3⟩, ⟨⟨100, 400, 1⟩, 400⟩] ∧
    claimUnlimitedShare 1000
        (1000 - (sumSharesOf Process.is_guaranteed
                   [⟨⟨200, -1, 1⟩, 200⟩, ⟨⟨100, 400, 1⟩, 400⟩] +
                 sumSharesOf Process.is_burstable
                   [⟨⟨200, -1, 1⟩, 200⟩, ⟨⟨100, 400, 1⟩, 400⟩]))
        [⟨⟨200, -1, 1⟩, 200⟩, ⟨⟨100, 400, 1⟩, 400⟩] ⟨⟨200, -1, 1⟩, 200⟩ = 600 ∧
    (1000 / 3 : ℚ) ≠ 600 := by
  refine ⟨?_, ?_, by norm_num⟩
  · norm_num [recalculate_cpu_requests_shares, assignRequestsLoop, burstableUnlimitedLoop,
      Process.get_cpu_request_per_thread, Process.is_guaranteed, Process.is_burstable,
      Process.is_unlimited_burstable, Process.is_limited_burstable, Process.is_best_effort,
      assign_cpu_requests_share, sumSharesOf, bestEffortAssign, List.filter]
  · norm_num [claimUnlimitedShare, sumRequestsOfUnlimited, sumSharesOf,
      Process.get_cpu_request_per_thread, Process.is_guaranteed, Process.is_burstable,
      Process.is_unlimited_burstable, Process.is_limited_burstable, Process.is_best_effort,
      List.filter]

/-- C4 amended: the burstable-unlimited distribution step of
`recalculate_cpu_requests_shares` (which it invokes with
`R = core.max - S_G - S_B` and `s0` = the burstable partition's share sum)
hands out the extras sequentially: processed in iteration order, each
burstable-unlimited thread receives `R * request(t) / S` on top of its
current share (capped at the core maximum), where `S` is the live share sum
of ALL burstable threads — limited ones included — at the moment the thread
is processed; threads of other QoS classes are left untouched. -/
theorem recalc_unlimited_sequential_distribution
    (maxCpu R : ℚ) : ∀ (ts : List RQThread) (s0 : ℚ) (tsOut : List RQThread),
    burstableUnlimitedLoop maxCpu R ts s0 = .ok tsOut →
    ((tsOut.filter (fun t => t.process.is_unlimited_burstable)).map
        (fun t => t.cpu_requests_share) =
      amendedUnlimitedShares maxCpu R
        ((ts.filter (fun t => t.process.is_unlimited_burstable)).map
          (fun t => ((t.process.get_cpu_request_per_thread maxCpu).getD 0,
                     t.cpu_requests_share)))
        s0) ∧
    (∀ i t, ts.get? i = some t → t.process.is_unlimited_burstable = false →
      tsOut.get? i = some t) ∧
    tsOut.map (fun t => t.process) = ts.map (fun t => t.process)
  | [], s0, tsOut, h => by
    obtain rfl := Except.ok.inj (h : Except.ok [] = Except.ok tsOut)
    refine ⟨by simp [amendedUnlimitedShares], ?_, by simp⟩
    intro i t hget
    simp at hget
  | t :: rest, s0, tsOut, h => by
    by_cases hu : t.process.is_unlimited_burstable
    · by_cases hs : s0 = 0
      · rw [burstableUnlimitedLoop, if_pos hu, if_pos hs] at h
        exact Except.noConfusion h
      · cases hreq : t.process.get_cpu_request_per_thread maxCpu with
        | none =>
          rw [burstableUnlimitedLoop, if_pos hu, if_neg hs, hreq] at h
          exact Except.noConfusion h
        | some req =>
          rw [burstableUnlimitedLoop, if_pos hu, if_neg hs, hreq] at h
          dsimp only at h
          cases hrec : burstableUnlimitedLoop maxCpu R rest
              (s0 + (assign_cpu_requests_share maxCpu
                (t.cpu_requests_share + R * (req / s0)) - t.cpu_requests_share)) with
          | error e =>
            rw [hrec] at h
            exact Except.noConfusion h
          | ok rest' =>
            rw [hrec] at h
            obtain rfl := Except.ok.inj h
            obtain ⟨ih1, ih2, ih3⟩ :=
              recalc_unlimited_sequential_distribution maxCpu R rest _ rest' hrec
            refine ⟨?_, ?_, ?_⟩
            · rw [List.filter_cons, List.filter_cons]
              simp only [hu, if_pos]
              rw [List.map_cons, List.map_cons, amendedUnlimitedShares]
              simp only [hreq, Option.getD_some]
              rw [ih1]
            · intro i u hget hnu
              cases i with
              | zero =>
                exfalso
                simp only [List.get?] at hget
                cases hget
                rw [hu] at hnu
                cases hnu
              | succ j =>
                simp only [List.get?] at hget ⊢
                exact ih2 j u hget hnu
            · simp only [List.map_cons, ih3]
    · rw [burstableUnlimitedLoop, if_neg hu] at h
      cases hrec : burstableUnlimitedLoop maxCpu R rest s0 with
      | error e =>
        rw [hrec] at h
        exact Except.noConfusion h
      | ok rest' =>
        rw [hrec] at h
        dsimp only at h
        obtain rfl := Except.ok.inj h
        obtain ⟨ih1, ih2, ih3⟩ :=
          recalc_unlimited_sequential_distribution maxCpu R rest s0 rest' hrec
        refine ⟨?_, ?_, ?_⟩
        · rw [List.filter_cons, List.filter_cons]
          simp only [hu]
          simpa using ih1
        · intro i u hget hnu
          cases i with
          | zero =>
            simp only [List.get?] at hget ⊢
            exact hget
          | succ j =>
            simp only [List.get?] at hget ⊢
            exact ih2 j u hget hnu
        · simp only [List.map_cons, ih3]

theorem recalc_unlimited_sequential_witness :
    (([⟨⟨200, -1, 1⟩, 1000 / 3⟩, ⟨⟨100, 400, 1⟩, 400⟩] : List RQThread).filter
        (fun t => t.process.is_unlimited_burstable)).map
        (fun t => t.cpu_requests_share) =
      amendedUnlimitedShares 1000 400
        ((([⟨⟨200, -1, 1⟩, 200⟩, ⟨⟨100, 400, 1⟩, 400⟩] : List RQThread).filter
            (fun t => t.process.is_unlimited_burstable)).map
          (fun t => ((t.process.get_cpu_request_per_thread 1000).getD 0,
                     t.cpu_requests_share)))
        600 := by
  refine (recalc_unlimited_sequential_distribution 1000 400
    [⟨⟨200, -1, 1⟩, 200⟩, ⟨⟨100, 400, 1⟩, 400⟩] 600
    [⟨⟨200, -1, 1⟩, 1000 / 3⟩, ⟨⟨100, 400, 1⟩, 400⟩] ?_).1
  norm_num [burstableUnlimitedLoop, Process.get_cpu_request_per_thread,
    Process.is_guaranteed, Process.is_burstable, Process.is_unlimited_burstable,
    Process.is_limited_burstable, Process.is_best_effort, assign_cpu_requests_share]

lemma be_false_of_guaranteed {p : Process} (h : p.is_guaranteed = true) :
    p.is_best_effort = false := by
  simp only [Process.is_guaranteed, Bool.and_eq_true, decide_eq_true_eq] at h
  simp only [Process.is_best_effort, Bool.and_eq_false_iff, decide_eq_false_iff_not]
  exact Or.inr h.2

lemma be_false_of_burstable {p : Process} (h : p.is_burstable = true) :
    p.is_best_effort = false := by
  simp only [Process.is_burstable, Bool.and_eq_true, decide_eq_true_eq] at h
  simp only [Process.is_best_effort, Bool.and_eq_false_iff, decide_eq_false_iff_not]
  exact Or.inr h.2

lemma burstable_of_unlimited {p : Process} (h : p.is_unlimited_burstable = true) :
    p.is_burstable = true := by
  simp only [Process.is_unlimited_burstable, Bool.and_eq_true, decide_eq_true_eq] at h
  simp only [Process.is_burstable, Bool.and_eq_true, decide_eq_true_eq]
  exact ⟨h.1.1, h.1.2⟩

lemma burstable_false_of_guaranteed {p : Process} (h : p.is_guaranteed = true) :
    p.is_burstable = false := by
  simp only [Process.is_guaranteed, Bool.and_eq_true, decide_eq_true_eq] at h
  simp only [Process.is_burstable, Bool.and_eq_false_iff, decide_eq_false_iff_not]
  exact Or.inl (by rw [h.1]; intro hc; exact hc rfl)

lemma guaranteed_false_of_burstable {p : Process} (h : p.is_burstable = true) :
    p.is_guaranteed = false := by
  simp only [Process.is_burstable, Bool.and_eq_true, decide_eq_true_eq] at h
  simp only [Process.is_guaranteed, Bool.and_eq_false_iff, decide_eq_false_iff_not]
  exact Or.inl h.1

lemma unlimited_false_of_best_effort {p : Process} (h : p.is_best_effort = true) :
    p.is_unlimited_burstable = false := by
  simp only [Process.is_best_effort, Bool.and_eq_true, decide_eq_true_eq] at h
  simp only [Process.is_unlimited_burstable, Bool.and_eq_false_iff, decide_eq_false_iff_not]
  exact Or.inl (Or.inl (by rw [h.1]; intro hc; exact hc rfl))

lemma assignRequestsLoop_map (maxCpu : ℚ) (pred : Process → Bool) : ∀ ts : List RQThread,
    (∀ t ∈ ts, pred t.process = true →
      t.process.get_cpu_request_per_thread maxCpu ≠ none) →
    assignRequestsLoop maxCpu pred ts = .ok (ts.map (assignRequestShare maxCpu pred))
  | [], _ => rfl
  | t :: rest, hc => by
    have hrec := assignRequestsLoop_map maxCpu pred rest
      (fun u hu hp => hc u (List.mem_cons_of_mem t hu) hp)
    by_cases hp : pred t.process = true
    · cases hreq : t.process.get_cpu_request_per_thread maxCpu with
      | none => exact absurd hreq (hc t (List.mem_cons_self t rest) hp)
      | some r =>
        rw [assignRequestsLoop, if_pos hp, hreq, hrec]
        simp only [List.map_cons, assignRequestShare, if_pos hp, hreq, Option.getD_some]
    · rw [assignRequestsLoop, if_neg hp, hrec]
      simp only [List.map_cons, assignRequestShare, if_neg hp]

lemma assignRequestsLoop_ok_inv (maxCpu : ℚ) (pred : Process → Bool) :
    ∀ (ts ts' : List RQThread), assignRequestsLoop maxCpu pred ts = .ok ts' →
    ∀ t ∈ ts, pred t.process = true → t.process.get_cpu_request_per_thread maxCpu ≠ none
  | [], _, _ => by intro t ht; simp at ht
  | t :: rest, ts', h => by
    intro u hu hp
    rcases List.mem_cons.mp hu with rfl | hmem
    · intro hnone
      rw [assignRequestsLoop, if_pos hp, hnone] at h
      exact Except.noConfusion h
    · by_cases hpt : pred t.process = true
      · cases hreq : t.process.get_cpu_request_per_thread maxCpu with
        | none =>
          rw [assignRequestsLoop, if_pos hpt, hreq] at h
          exact Except.noConfusion h
        | some r =>
          rw [assignRequestsLoop, if_pos hpt, hreq] at h
          cases hrec : assignRequestsLoop maxCpu pred rest with
          | error e => rw [hrec] at h; exact Except.noConfusion h
          | ok rest' =>
            exact assignRequestsLoop_ok_inv maxCpu pred rest rest' hrec u hmem hp
      · rw [assignRequestsLoop, if_neg hpt] at h
        cases hrec : assignRequestsLoop maxCpu pred rest with
        | error e => rw [hrec] at h; exact Except.noConfusion h
        | ok rest' =>
          exact assignRequestsLoop_ok_inv maxCpu pred rest rest' hrec u hmem hp

lemma assignRequestShare_process (maxCpu : ℚ) (pred : Process → Bool) (t : RQThread) :
    (assignRequestShare maxCpu pred t).process = t.process := by
  unfold assignRequestShare
  split <;> rfl

lemma sumSharesOf_congr (pred : Process → Bool)
    (himp : ∀ p : Process, pred p = true → p.is_best_effort = false)
    {ts us : List RQThread} (h : List.Forall₂ relNBE ts us) :
    sumSharesOf pred ts = sumSharesOf pred us := by
  induction h with
  | nil => rfl
  | @cons a b l1 l2 hab htail ih =>
    obtain ⟨hproc, hshare⟩ := hab
    unfold sumSharesOf at *
    rw [List.filter_cons, List.filter_cons]
    by_cases hp : pred a.process = true
    · rw [if_pos (by simpa using hp), if_pos (by rw [← hproc]; simpa using hp)]
      simp only [List.map_cons, List.sum_cons]
      rw [hshare (himp _ hp), ih]
    · rw [if_neg (by simpa using hp), if_neg (by rw [← hproc]; simpa using hp)]
      exact ih

lemma beCount_congr {ts us : List RQThread} (h : List.Forall₂ relNBE ts us) :
    (ts.filter (fun t => t.process.is_best_effort)).length =
      (us.filter (fun t => t.process.is_best_effort)).length := by
  induction h with
  | nil => rfl
  | @cons a b l1 l2 hab htail ih =>
    obtain ⟨hproc, -⟩ := hab
    rw [List.filter_cons, List.filter_cons]
    by_cases hp : a.process.is_best_effort = true
    · rw [if_pos (by simpa using hp), if_pos (by rw [← hproc]; simpa using hp)]
      simp only [List.length_cons, ih]
    · rw [if_neg (by simpa using hp), if_neg (by rw [← hproc]; simpa using hp)]
      exact ih

lemma forall₂_map_process {ts us : List RQThread} (h : List.Forall₂ relNBE ts us) :
    us.map (fun t => t.process) = ts.map (fun t => t.process) := by
  induction h with
  | nil => rfl
  | @cons a b l1 l2 hab htail ih =>
    simp only [List.map_cons, ih, hab.1]

lemma burstableUnlimitedLoop_congr (maxCpu R : ℚ) {ts us : List RQThread}
    (h : List.Forall₂ relNBE ts us) : ∀ (s0 : ℚ) (ts3 : List RQThread),
    burstableUnlimitedLoop maxCpu R ts s0 = .ok ts3 →
    ∃ us3, burstableUnlimitedLoop maxCpu R us s0 = .ok us3 ∧
      List.Forall₂ relNBE ts3 us3 := by
  induction h with
  | nil =>
    intro s0 ts3 hloop
    obtain rfl := Except.ok.inj (hloop : Except.ok [] = Except.ok ts3)
    exact ⟨[], rfl, List.Forall₂.nil⟩
  | @cons a b l1 l2 hab htail ih =>
    intro s0 ts3 hloop
    obtain ⟨hproc, hshare⟩ := hab
    by_cases hu : a.process.is_unlimited_burstable = true
    · have hub : b.process.is_unlimited_burstable = true := by rw [← hproc]; exact hu
      by_cases hs : s0 = 0
      · rw [burstableUnlimitedLoop, if_pos hu, if_pos hs] at hloop
        exact Except.noConfusion hloop
      · cases hreq : a.process.get_cpu_request_per_thread maxCpu with
        | none =>
          rw [burstableUnlimitedLoop, if_pos hu, if_neg hs, hreq] at hloop
          exact Except.noConfusion hloop
        | some req =>
          rw [burstableUnlimitedLoop, if_pos hu, if_neg hs, hreq] at hloop
          dsimp only at hloop
          have hse : a.cpu_requests_share = b.cpu_requests_share :=
            hshare (be_false_of_burstable (burstable_of_unlimited hu))
          cases hrec : burstableUnlimitedLoop maxCpu R l1
              (s0 + (assign_cpu_requests_share maxCpu
                (a.cpu_requests_share + R * (req / s0)) - a.cpu_requests_share)) with
          | error e =>
            rw [hrec] at hloop
            exact Except.noConfusion hloop
          | ok rest3 =>
            rw [hrec] at hloop
            obtain rfl := Except.ok.inj hloop
            obtain ⟨rest3', hok', hrel'⟩ := ih _ _ hrec
            refine ⟨⟨b.process, assign_cpu_requests_share maxCpu
                (b.cpu_requests_share + R * (req / s0))⟩ :: rest3', ?_, ?_⟩
            · rw [burstableUnlimitedLoop, if_pos hub, if_neg hs,
                (by rw [← hproc]; exact hreq :
                  b.process.get_cpu_request_per_thread maxCpu = some req)]
              dsimp only
              rw [← hse, hok']
            · exact List.Forall₂.cons ⟨hproc, fun _ => by rw [hse]⟩ hrel'
    · have hub : ¬ b.process.is_unlimited_burstable = true := by rw [← hproc]; exact hu
      rw [burstableUnlimitedLoop, if_neg hu] at hloop
      cases hrec : burstableUnlimitedLoop maxCpu R l1 s0 with
      | error e =>
        rw [hrec] at hloop
        exact Except.noConfusion hloop
      | ok rest3 =>
        rw [hrec] at hloop
        dsimp only at hloop
        obtain rfl := Except.ok.inj hloop
        obtain ⟨rest3', hok', hrel'⟩ := ih _ _ hrec
        refine ⟨b :: rest3', ?_, List.Forall₂.cons ⟨hproc, hshare⟩ hrel'⟩
        rw [burstableUnlimitedLoop, if_neg hub, hok']

lemma burstableUnlimitedLoop_untouched (maxCpu R : ℚ) :
    ∀ (ts : List RQThread) (s0 : ℚ) (ts3 : List RQThread),
    burstableUnlimitedLoop maxCpu R ts s0 = .ok ts3 →
    List.Forall₂ (fun t t' => t'.process = t.process ∧
      (t.process.is_unlimited_burstable = false → t' = t)) ts ts3
  | [], s0, ts3, h => by
    obtain rfl := Except.ok.inj (h : Except.ok [] = Except.ok ts3)
    exact List.Forall₂.nil
  | t :: rest, s0, ts3, h => by
    by_cases hu : t.process.is_unlimited_burstable = true
    · by_cases hs : s0 = 0
      · rw [burstableUnlimitedLoop, if_pos hu, if_pos hs] at h
        exact Except.noConfusion h
      · cases hreq : t.process.get_cpu_request_per_thread maxCpu with
        | none =>
          rw [burstableUnlimitedLoop, if_pos hu, if_neg hs, hreq] at h
          exact Except.noConfusion h
        | some req =>
          rw [burstableUnlimitedLoop, if_pos hu, if_neg hs, hreq] at h
          dsimp only at h
          cases hrec : burstableUnlimitedLoop maxCpu R rest
              (s0 + (assign_cpu_requests_share maxCpu
                (t.cpu_requests_share + R * (req / s0)) - t.cpu_requests_share)) with
          | error e => rw [hrec] at h; exact Except.noConfusion h
          | ok rest3 =>
            rw [hrec] at h
            obtain rfl := Except.ok.inj h
            refine List.Forall₂.cons ⟨rfl, fun hfalse => ?_⟩
              (burstableUnlimitedLoop_untouched maxCpu R rest _ rest3 hrec)
            rw [hu] at hfalse
            exact Bool.noConfusion hfalse
    · rw [burstableUnlimitedLoop, if_neg hu] at h
      cases hrec : burstableUnlimitedLoop maxCpu R rest s0 with
      | error e => rw [hrec] at h; exact Except.noConfusion h
      | ok rest3 =>
        rw [hrec] at h
        dsimp only at h
        obtain rfl := Except.ok.inj h
        exact List.Forall₂.cons ⟨rfl, fun _ => rfl⟩
          (burstableUnlimitedLoop_untouched maxCpu R rest s0 rest3 hrec)

lemma bestEffortAssign_congr (maxCpu fair : ℚ) {ts us : List RQThread}
    (h : List.Forall₂ relNBE ts us) :
    bestEffortAssign maxCpu fair ts = bestEffortAssign maxCpu fair us := by
  induction h with
  | nil => rfl
  | @cons a b l1 l2 hab htail ih =>
    obtain ⟨hproc, hshare⟩ := hab
    unfold bestEffortAssign at *
    simp only [List.map_cons]
    rw [ih]
    by_cases hbe : a.process.is_best_effort = true
    · rw [if_pos hbe, if_pos (by rw [← hproc]; exact hbe), hproc]
    · have hbe' : a.process.is_best_effort = false := by
        cases hv : a.process.is_best_effort
        · rfl
        · exact absurd hv hbe
      rw [if_neg hbe, if_neg (by rw [← hproc]; exact hbe)]
      have : a = b := by
        have h2 := hshare (by simpa using hbe')
        cases a with
        | mk ap ash =>
          cases b with
          | mk bp bsh =>
            simp only at hproc h2
            subst hproc
            subst h2
            rfl
      rw [this]

lemma f12_idem (maxCpu : ℚ) (t : RQThread) :
    assignRequestShare maxCpu Process.is_burstable
      (assignRequestShare maxCpu Process.is_guaranteed
        (assignRequestShare maxCpu Process.is_burstable
          (assignRequestShare maxCpu Process.is_guaranteed t))) =
    assignRequestShare maxCpu Process.is_burstable
      (assignRequestShare maxCpu Process.is_guaranteed t) := by
  by_cases hg : t.process.is_guaranteed = true
  · have hb : t.process.is_burstable = false := burstable_false_of_guaranteed hg
    unfold assignRequestShare
    simp only [hg, if_pos, hb]
    simp [hg, hb]
  · by_cases hb : t.process.is_burstable = true
    · have hg' : t.process.is_guaranteed = false := guaranteed_false_of_burstable hb
      unfold assignRequestShare
      simp [hg', hb]
    · unfold assignRequestShare
      simp [hg, hb]

lemma f12_unlim (maxCpu : ℚ) (t : RQThread) (hu : t.process.is_unlimited_burstable = true) :
    assignRequestShare maxCpu Process.is_burstable
      (assignRequestShare maxCpu Process.is_guaranteed t) =
    ⟨t.process, assign_cpu_requests_share maxCpu
      ((t.process.get_cpu_request_per_thread maxCpu).getD 0)⟩ := by
  have hb : t.process.is_burstable = true := burstable_of_unlimited hu
  have hg : t.process.is_guaranteed = false := guaranteed_false_of_burstable hb
  unfold assignRequestShare
  simp [hg, hb]

lemma map_process_aRS (maxCpu : ℚ) (pred : Process → Bool) (ts : List RQThread) :
    (ts.map (assignRequestShare maxCpu pred)).map (fun t => t.process) =
      ts.map (fun t => t.process) := by
  rw [List.map_map]
  have : ((fun t : RQThread => t.process) ∘ assignRequestShare maxCpu pred) =
      fun t : RQThread => t.process :=
    funext (fun t => assignRequestShare_process maxCpu pred t)
  rw [this]

lemma relNBE_of_f12 (maxCpu : ℚ) : ∀ (ts us : List RQThread),
    ts.map (fun t => t.process) = us.map (fun t => t.process) →
    (∀ t ∈ ts, (t.process.is_best_effort || t.process.is_guaranteed ||
       t.process.is_burstable) = true) →
    List.Forall₂ relNBE
      ((ts.map (assignRequestShare maxCpu Process.is_guaranteed)).map
        (assignRequestShare maxCpu Process.is_burstable))
      ((us.map (assignRequestShare maxCpu Process.is_guaranteed)).map
        (assignRequestShare maxCpu Process.is_burstable))
  | [], us, hmap, _ => by
    have : us = [] := by
      cases us with
      | nil => rfl
      | cons u us' => exact absurd hmap (by simp)
    subst this
    exact List.Forall₂.nil
  | t :: rest, us, hmap, hwf => by
    cases us with
    | nil => exact absurd hmap (by simp)
    | cons u us' =>
      simp only [List.map_cons, List.cons.injEq] at hmap
      obtain ⟨hproc, htail⟩ := hmap
      have ihtail := relNBE_of_f12 maxCpu rest us' htail
        (fun v hv => hwf v (List.mem_cons_of_mem t hv))
      simp only [List.map_cons]
      refine List.Forall₂.cons ?_ ihtail
      have hcls := hwf t (List.mem_cons_self t rest)
      by_cases hg : t.process.is_guaranteed = true
      · have hb : t.process.is_burstable = false := burstable_false_of_guaranteed hg
        refine ⟨?_, ?_⟩
        · rw [assignRequestShare_process, assignRequestShare_process,
              assignRequestShare_process, assignRequestShare_process, hproc]
        · intro _
          unfold assignRequestShare
          simp [hg, hb, ← hproc]
      · by_cases hb : t.process.is_burstable = true
        · have hg' : t.process.is_guaranteed = false := guaranteed_false_of_burstable hb
          refine ⟨?_, ?_⟩
          · rw [assignRequestShare_process, assignRequestShare_process,
                assignRequestShare_process, assignRequestShare_process, hproc]
          · intro _
            unfold assignRequestShare
            simp [hg', hb, ← hproc]
        · have hbe : t.process.is_best_effort = true := by
            rcases Bool.or_eq_true_iff.mp hcls with h1 | h2
            · rcases Bool.or_eq_true_iff.mp h1 with h3 | h4
              · exact h3
              · exact absurd h4 hg
            · exact absurd h2 hb
          refine ⟨?_, ?_⟩
          · rw [assignRequestShare_process, assignRequestShare_process,
                assignRequestShare_process, assignRequestShare_process, hproc]
          · intro hfalse
            rw [assignRequestShare_process, assignRequestShare_process] at hfalse
            rw [hbe] at hfalse
            exact Bool.noConfusion hfalse

lemma map_f12_absorb (maxCpu : ℚ) : ∀ (ts2 ts3 : List RQThread),
    List.Forall₂ (fun t t' => t'.process = t.process ∧
      (t.process.is_unlimited_burstable = false → t' = t)) ts2 ts3 →
    (∀ e ∈ ts2, assignRequestShare maxCpu Process.is_burstable
      (assignRequestShare maxCpu Process.is_guaranteed e) = e) →
    (ts3.map (assignRequestShare maxCpu Process.is_guaranteed)).map
      (assignRequestShare maxCpu Process.is_burstable) = ts2 := by
  intro ts2 ts3 hrel hfix
  induction hrel with
  | nil => rfl
  | @cons e2 e3 l2 l3 hab htail ih =>
    obtain ⟨hproc, huntouch⟩ := hab
    simp only [List.map_cons]
    rw [ih (fun v hv => hfix v (List.mem_cons_of_mem e2 hv))]
    by_cases hu : e2.process.is_unlimited_burstable = true
    · have h3 := f12_unlim maxCpu e3 (by rw [hproc]; exact hu)
      have h2 := hfix e2 (List.mem_cons_self e2 l2)
      have h2' := (f12_unlim maxCpu e2 hu).symm.trans h2
      rw [h3, hproc, h2']
    · have hfalse : e2.process.is_unlimited_burstable = false := by
        cases hv : e2.process.is_unlimited_burstable
        · rfl
        · exact absurd hv hu
      rw [huntouch hfalse, hfix e2 (List.mem_cons_self e2 l2)]

lemma mem_map_f12_fix (maxCpu : ℚ) (ts : List RQThread) :
    ∀ e ∈ (ts.map (assignRequestShare maxCpu Process.is_guaranteed)).map
      (assignRequestShare maxCpu Process.is_burstable),
    assignRequestShare maxCpu Process.is_burstable
      (assignRequestShare maxCpu Process.is_guaranteed e) = e := by
  intro e he
  rw [List.map_map] at he
  obtain ⟨x, -, rfl⟩ := List.mem_map.mp he
  exact f12_idem maxCpu x

lemma forall₂_untouched_map_process {ts2 ts3 : List RQThread}
    (h : List.Forall₂ (fun t t' => t'.process = t.process ∧
      (t.process.is_unlimited_burstable = false → t' = t)) ts2 ts3) :
    ts3.map (fun t => t.process) = ts2.map (fun t => t.process) := by
  induction h with
  | nil => rfl
  | @cons a b l1 l2 hab htail ih =>
    simp only [List.map_cons, ih, hab.1]

lemma bestEffortAssign_map_process (maxCpu fair : ℚ) (ts : List RQThread) :
    (bestEffortAssign maxCpu fair ts).map (fun t => t.process) =
      ts.map (fun t => t.process) := by
  unfold bestEffortAssign
  rw [List.map_map]
  apply List.map_congr_left
  intro t _
  simp only [Function.comp_apply]
  split <;> rfl

lemma process_prop_transfer (P : Process → Prop) {ts us : List RQThread}
    (hmap : ts.map (fun t => t.process) = us.map (fun t => t.process))
    (hp : ∀ t ∈ ts, P t.process) : ∀ u ∈ us, P u.process := by
  intro u hu
  have : u.process ∈ us.map (fun t => t.process) := List.mem_map_of_mem _ hu
  rw [← hmap] at this
  obtain ⟨s, hs, hse⟩ := List.mem_map.mp this
  rw [← hse]
  exact hp s hs

/-- C5: running `recalculate_cpu_requests_shares` twice in a row on the same
run queue, with no enqueue or dequeue in between, leaves every thread's
`cpu_requests_share` at its value after the first run: the second run
succeeds and returns the same list.  The queue's threads are assumed to be
QoS-categorized (best-effort, guaranteed or burstable), which
`categorize_thread_into_sets` enforces at enqueue time. -/
theorem recalculate_cpu_requests_shares_idempotent (maxCpu : ℚ)
    (ts out : List RQThread)
    (hwf : ∀ t ∈ ts, (t.process.is_best_effort || t.process.is_guaranteed ||
       t.process.is_burstable) = true)
    (h : recalculate_cpu_requests_shares maxCpu ts = .ok out) :
    recalculate_cpu_requests_shares maxCpu out = .ok out := by
  by_cases hnil : ts.length = 0
  · unfold recalculate_cpu_requests_shares at h
    rw [if_pos hnil] at h
    obtain rfl := Except.ok.inj h
    unfold recalculate_cpu_requests_shares
    rw [if_pos hnil]
  · unfold recalculate_cpu_requests_shares at h
    rw [if_neg hnil] at h
    cases hg : assignRequestsLoop maxCpu Process.is_guaranteed ts with
    | error e => rw [hg] at h; exact Except.noConfusion h
    | ok ts1 =>
    rw [hg] at h
    dsimp only at h
    cases hb : assignRequestsLoop maxCpu Process.is_burstable ts1 with
    | error e => rw [hb] at h; exact Except.noConfusion h
    | ok ts2 =>
    rw [hb] at h
    dsimp only at h
    cases hu : burstableUnlimitedLoop maxCpu
        (maxCpu - (sumSharesOf Process.is_guaranteed ts2 +
          sumSharesOf Process.is_burstable ts2))
        ts2 (sumSharesOf Process.is_burstable ts2) with
    | error e => rw [hu] at h; exact Except.noConfusion h
    | ok ts3 =>
    rw [hu] at h
    dsimp only at h
    have hcondG : ∀ t ∈ ts, Process.is_guaranteed t.process = true →
        t.process.get_cpu_request_per_thread maxCpu ≠ none :=
      assignRequestsLoop_ok_inv maxCpu Process.is_guaranteed ts ts1 hg
    have hts1 : ts1 = ts.map (assignRequestShare maxCpu Process.is_guaranteed) := by
      have h2 := assignRequestsLoop_map maxCpu Process.is_guaranteed ts hcondG
      rw [hg] at h2
      exact Except.ok.inj h2
    have hcondB : ∀ t ∈ ts1, Process.is_burstable t.process = true →
        t.process.get_cpu_request_per_thread maxCpu ≠ none :=
      assignRequestsLoop_ok_inv maxCpu Process.is_burstable ts1 ts2 hb
    have hts2 : ts2 = ts1.map (assignRequestShare maxCpu Process.is_burstable) := by
      have h2 := assignRequestsLoop_map maxCpu Process.is_burstable ts1 hcondB
      rw [hb] at h2
      exact Except.ok.inj h2
    have hp1 : ts1.map (fun t => t.process) = ts.map (fun t => t.process) := by
      rw [hts1]
      exact map_process_aRS maxCpu Process.is_guaranteed ts
    have hp2 : ts2.map (fun t => t.process) = ts.map (fun t => t.process) := by
      rw [hts2, map_process_aRS, hp1]
    have huntouch := burstableUnlimitedLoop_untouched maxCpu
      (maxCpu - (sumSharesOf Process.is_guaranteed ts2 +
        sumSharesOf Process.is_burstable ts2)) ts2
      (sumSharesOf Process.is_burstable ts2) ts3 hu
    have hp3 : ts3.map (fun t => t.process) = ts.map (fun t => t.process) := by
      rw [forall₂_untouched_map_process huntouch, hp2]
    by_cases hcond : 0 < maxCpu - (sumSharesOf Process.is_guaranteed ts2 +
          sumSharesOf Process.is_burstable ts2) -
          sumSharesOf Process.is_unlimited_burstable ts3 ∧
        0 < (ts3.filter (fun t => t.process.is_best_effort)).length
    · rw [if_pos hcond] at h
      obtain rfl := Except.ok.inj h
      have hout_proc : (bestEffortAssign maxCpu
          ((maxCpu - (sumSharesOf Process.is_guaranteed ts2 +
            sumSharesOf Process.is_burstable ts2) -
            sumSharesOf Process.is_unlimited_burstable ts3) /
            ((ts3.filter (fun t => t.process.is_best_effort)).length : ℚ)) ts3).map
            (fun t => t.process) = ts.map (fun t => t.process) := by
        rw [bestEffortAssign_map_process, hp3]
      set fair := (maxCpu - (sumSharesOf Process.is_guaranteed ts2 +
          sumSharesOf Process.is_burstable ts2) -
          sumSharesOf Process.is_unlimited_burstable ts3) /
          ((ts3.filter (fun t => t.process.is_best_effort)).length : ℚ) with hfair
      set out := bestEffortAssign maxCpu fair ts3 with hout
      have hlenO : ¬ out.length = 0 := by
        have hlen : out.length = ts.length := by
          have := congrArg List.length hout_proc
          simpa using this
        rw [hlen]
        exact hnil
      have hcondGO : ∀ u ∈ out, Process.is_guaranteed u.process = true →
          u.process.get_cpu_request_per_thread maxCpu ≠ none :=
        process_prop_transfer
          (fun p => p.is_guaranteed = true → p.get_cpu_request_per_thread maxCpu ≠ none)
          hout_proc.symm hcondG
      have hgO := assignRequestsLoop_map maxCpu Process.is_guaranteed out hcondGO
      have hus1_proc : ((out.map (assignRequestShare maxCpu Process.is_guaranteed)).map
          (fun t => t.process)) = ts1.map (fun t => t.process) := by
        rw [map_process_aRS, hout_proc, hp1]
      have hcondBO : ∀ u ∈ out.map (assignRequestShare maxCpu Process.is_guaranteed),
          Process.is_burstable u.process = true →
          u.process.get_cpu_request_per_thread maxCpu ≠ none :=
        process_prop_transfer
          (fun p => p.is_burstable = true → p.get_cpu_request_per_thread maxCpu ≠ none)
          hus1_proc.symm hcondB
      have hbO := assignRequestsLoop_map maxCpu Process.is_burstable
        (out.map (assignRequestShare maxCpu Process.is_guaranteed)) hcondBO
      have hrel : List.Forall₂ relNBE ts2
          ((out.map (assignRequestShare maxCpu Process.is_guaranteed)).map
            (assignRequestShare maxCpu Process.is_burstable)) := by
        rw [hts2, hts1]
        exact relNBE_of_f12 maxCpu ts out hout_proc.symm hwf
      have hsG : sumSharesOf Process.is_guaranteed
          ((out.map (assignRequestShare maxCpu Process.is_guaranteed)).map
            (assignRequestShare maxCpu Process.is_burstable)) =
          sumSharesOf Process.is_guaranteed ts2 :=
        (sumSharesOf_congr Process.is_guaranteed
          (fun _ hp => be_false_of_guaranteed hp) hrel).symm
      have hsB : sumSharesOf Process.is_burstable
          ((out.map (assignRequestShare maxCpu Process.is_guaranteed)).map
            (assignRequestShare maxCpu Process.is_burstable)) =
          sumSharesOf Process.is_burstable ts2 :=
        (sumSharesOf_congr Process.is_burstable
          (fun _ hp => be_false_of_burstable hp) hrel).symm
      obtain ⟨us3, husOk, hrel3⟩ := burstableUnlimitedLoop_congr maxCpu
        (maxCpu - (sumSharesOf Process.is_guaranteed ts2 +
          sumSharesOf Process.is_burstable ts2)) hrel
        (sumSharesOf Process.is_burstable ts2) ts3 hu
      have hsU : sumSharesOf Process.is_unlimited_burstable us3 =
          sumSharesOf Process.is_unlimited_burstable ts3 :=
        (sumSharesOf_congr Process.is_unlimited_burstable
          (fun _ hp => be_false_of_burstable (burstable_of_unlimited hp)) hrel3).symm
      have hcnt : (us3.filter (fun t => t.process.is_best_effort)).length =
          (ts3.filter (fun t => t.process.is_best_effort)).length :=
        (beCount_congr hrel3).symm
      unfold recalculate_cpu_requests_shares
      rw [if_neg hlenO, hgO]
      dsimp only
      rw [hbO]
      dsimp only
      rw [hsG, hsB, husOk]
      dsimp only
      rw [hsU, hcnt, if_pos hcond]
      rw [← bestEffortAssign_congr maxCpu fair hrel3]
    · rw [if_neg hcond] at h
      obtain rfl := Except.ok.inj h
      have hout_proc : ts3.map (fun t => t.process) = ts.map (fun t => t.process) := hp3
      have hlenO : ¬ ts3.length = 0 := by
        have hlen : ts3.length = ts.length := by
          have := congrArg List.length hout_proc
          simpa using this
        rw [hlen]
        exact hnil
      have hcondGO : ∀ u ∈ ts3, Process.is_guaranteed u.process = true →
          u.process.get_cpu_request_per_thread maxCpu ≠ none :=
        process_prop_transfer
          (fun p => p.is_guaranteed = true → p.get_cpu_request_per_thread maxCpu ≠ none)
          hout_proc.symm hcondG
      have hgO := assignRequestsLoop_map maxCpu Process.is_guaranteed ts3 hcondGO
      have hus1_proc : ((ts3.map (assignRequestShare maxCpu Process.is_guaranteed)).map
          (fun t => t.process)) = ts1.map (fun t => t.process) := by
        rw [map_process_aRS, hout_proc, hp1]
      have hcondBO : ∀ u ∈ ts3.map (assignRequestShare maxCpu Process.is_guaranteed),
          Process.is_burstable u.process = true →
          u.process.get_cpu_request_per_thread maxCpu ≠ none :=
        process_prop_transfer
          (fun p => p.is_burstable = true → p.get_cpu_request_per_thread maxCpu ≠ none)
          hus1_proc.symm hcondB
      have hbO := assignRequestsLoop_map maxCpu Process.is_burstable
        (ts3.map (assignRequestShare maxCpu Process.is_guaranteed)) hcondBO
      have habs : (ts3.map (assignRequestShare maxCpu Process.is_guaranteed)).map
          (assignRequestShare maxCpu Process.is_burstable) = ts2 := by
        refine map_f12_absorb maxCpu ts2 ts3 huntouch ?_
        rw [hts2, hts1]
        exact mem_map_f12_fix maxCpu ts
      unfold recalculate_cpu_requests_shares
      rw [if_neg hlenO, hgO]
      dsimp only
      rw [hbO]
      dsimp only
      rw [habs, hu]
      dsimp only
      rw [if_neg hcond]

theorem recalculate_idempotent_witness :
    recalculate_cpu_requests_shares 1000
      [⟨⟨200, -1, 1⟩, 1000 / 3⟩, ⟨⟨100, 400, 1⟩, 400⟩] =
      .ok [⟨⟨200, -1, 1⟩, 1000 / 3⟩, ⟨⟨100, 400, 1⟩, 400⟩] := by
  refine recalculate_cpu_requests_shares_idempotent 1000
    [⟨⟨200, -1, 1⟩, 200⟩, ⟨⟨100, 400, 1⟩, 100⟩]
    [⟨⟨200, -1, 1⟩, 1000 / 3⟩, ⟨⟨100, 400, 1⟩, 400⟩] ?_ ?_
  · intro t ht
    rcases List.mem_cons.mp ht with rfl | ht2
    · rfl
    · rcases List.mem_cons.mp ht2 with rfl | ht3
      · rfl
      · simp at ht3
  · norm_num [recalculate_cpu_requests_shares, assignRequestsLoop, burstableUnlimitedLoop,
      Process.get_cpu_request_per_thread, Process.is_guaranteed, Process.is_burstable,
      Process.is_unlimited_burstable, Process.is_limited_burstable, Process.is_best_effort,
      assign_cpu_requests_share, sumSharesOf, bestEffortAssign, List.filter]

lemma scoreLe_refl (w : LeastFitWeights) (r : MicroserviceRequests) (a : HostState) :
    scoreLe w r a a :=
  Or.inr ⟨rfl, le_refl _⟩

lemma scoreLe_trans (w : LeastFitWeights) (r : MicroserviceRequests) {a b c : HostState}
    (h1 : scoreLe w r a b) (h2 : scoreLe w r b c) : scoreLe w r a c := by
  rcases h1 with h1 | ⟨h1e, h1r⟩
  · rcases h2 with h2 | ⟨h2e, -⟩
    · exact Or.inl (lt_trans h1 h2)
    · exact Or.inl (h2e ▸ h1)
  · rcases h2 with h2 | ⟨h2e, h2r⟩
    · exact Or.inl (h1e ▸ h2)
    · exact Or.inr ⟨h1e.trans h2e, le_trans h1r h2r⟩

lemma leastFitFold_some_spec (w : LeastFitWeights) (r : MicroserviceRequests)
    (acc : Option (HostState × ℚ)) (h : HostState)
    (hacc : ∀ b sb, acc = some (b, sb) → sb = calculate_host_score w b r) :
    (∃ b1 s1, leastFitFold w r acc h = some (b1, s1)) ∧
    (∀ b1 s1, leastFitFold w r acc h = some (b1, s1) →
      s1 = calculate_host_score w b1 r ∧
      (b1 = h ∨ acc = some (b1, s1)) ∧
      scoreLe w r b1 h ∧
      (∀ b0 sb0, acc = some (b0, sb0) → scoreLe w r b1 b0)) := by
  cases hav : acc with
  | none =>
    subst hav
    unfold leastFitFold
    refine ⟨⟨h, _, rfl⟩, ?_⟩
    intro b1 s1 hh
    obtain ⟨rfl, rfl⟩ := Prod.mk.inj (Option.some.inj hh)
    exact ⟨rfl, Or.inl rfl, scoreLe_refl w r h, fun b0 sb0 h0 => Option.noConfusion h0⟩
  | some p =>
    obtain ⟨b0, s0⟩ := p
    subst hav
    have hs0 : s0 = calculate_host_score w b0 r := hacc b0 s0 rfl
    unfold leastFitFold
    dsimp only
    by_cases hlt : calculate_host_score w h r < s0
    · rw [if_pos hlt]
      refine ⟨⟨h, _, rfl⟩, ?_⟩
      intro b1 s1 hh
      obtain ⟨rfl, rfl⟩ := Prod.mk.inj (Option.some.inj hh)
      refine ⟨rfl, Or.inl rfl, scoreLe_refl w r h, ?_⟩
      intro b0' sb0' h0'
      obtain ⟨rfl, rfl⟩ := Prod.mk.inj (Option.some.inj h0')
      exact Or.inl (hs0 ▸ hlt)
    · rw [if_neg hlt]
      by_cases heq : calculate_host_score w h r = s0 ∧ h.replicas < b0.replicas
      · rw [if_pos heq]
        refine ⟨⟨h, s0, rfl⟩, ?_⟩
        intro b1 s1 hh
        obtain ⟨rfl, rfl⟩ := Prod.mk.inj (Option.some.inj hh)
        refine ⟨heq.1.symm, Or.inl rfl, scoreLe_refl w r h, ?_⟩
        intro b0' sb0' h0'
        obtain ⟨rfl, rfl⟩ := Prod.mk.inj (Option.some.inj h0')
        exact Or.inr ⟨heq.1.trans hs0, le_of_lt heq.2⟩
      · rw [if_neg heq]
        refine ⟨⟨b0, s0, rfl⟩, ?_⟩
        intro b1 s1 hh
        obtain ⟨rfl, rfl⟩ := Prod.mk.inj (Option.some.inj hh)
        push_neg at hlt heq
        refine ⟨hs0, Or.inr rfl, ?_, ?_⟩
        · rcases lt_or_eq_of_le hlt with hlt2 | heq2
          · exact Or.inl (by rw [← hs0]; exact hlt2)
          · exact Or.inr ⟨by rw [← hs0, heq2], heq heq2.symm⟩
        · intro b0' sb0' h0'
          obtain ⟨rfl, rfl⟩ := Prod.mk.inj (Option.some.inj h0')
          exact scoreLe_refl w r b0

lemma leastFit_foldl_spec (w : LeastFitWeights) (r : MicroserviceRequests)
    (anti : List String) : ∀ (hosts : List HostState) (acc : Option (HostState × ℚ)),
    (∀ b sb, acc = some (b, sb) → sb = calculate_host_score w b r) →
    ((hosts.foldl (fun best h =>
        if hostQualifies anti r h then leastFitFold w r best h else best) acc = none ↔
      (acc = none ∧ ∀ h ∈ hosts, hostQualifies anti r h = false)) ∧
     (∀ b sb, hosts.foldl (fun best h =>
        if hostQualifies anti r h then leastFitFold w r best h else best) acc =
          some (b, sb) →
       sb = calculate_host_score w b r ∧
       (acc = some (b, sb) ∨ (b ∈ hosts ∧ hostQualifies anti r b = true)) ∧
       (∀ h' ∈ hosts, hostQualifies anti r h' = true → scoreLe w r b h') ∧
       (∀ b0 sb0, acc = some (b0, sb0) → scoreLe w r b b0)))
  | [], acc, hacc => by
    refine ⟨by simp, ?_⟩
    intro b sb hres
    simp only [List.foldl_nil] at hres
    refine ⟨hacc b sb hres, Or.inl hres, by simp, ?_⟩
    intro b0 sb0 h0
    rw [h0] at hres
    obtain ⟨rfl, rfl⟩ := Prod.mk.inj (Option.some.inj hres)
    exact scoreLe_refl w r b0
  | h :: rest, acc, hacc => by
    simp only [List.foldl_cons]
    by_cases hq : hostQualifies anti r h = true
    · rw [if_pos hq]
      obtain ⟨⟨b1, s1, hfold⟩, hstep⟩ := leastFitFold_some_spec w r acc h hacc
      obtain ⟨hs1, horig1, hvs_h, hvs_acc⟩ := hstep b1 s1 hfold
      have haccnew : ∀ b sb, leastFitFold w r acc h = some (b, sb) →
          sb = calculate_host_score w b r := by
        intro b sb hh
        rw [hfold] at hh
        obtain ⟨rfl, rfl⟩ := Prod.mk.inj (Option.some.inj hh)
        exact hs1
      obtain ⟨ihnone, ihsome⟩ :=
        leastFit_foldl_spec w r anti rest (leastFitFold w r acc h) haccnew
      constructor
      · rw [ihnone]
        constructor
        · rintro ⟨hfnone, -⟩
          rw [hfold] at hfnone
          exact absurd hfnone (by simp)
        · rintro ⟨-, hall⟩
          have := hall h (List.mem_cons_self h rest)
          rw [hq] at this
          exact Bool.noConfusion this
      · intro b sb hres
        obtain ⟨hsb, horigin, hmin, hvs⟩ := ihsome b sb hres
        have hble : scoreLe w r b b1 := by
          rcases horigin with hor | ⟨hmem, hqb⟩
          · rw [hfold] at hor
            obtain ⟨rfl, rfl⟩ := Prod.mk.inj (Option.some.inj hor)
            exact scoreLe_refl w r b1
          · exact hvs b1 s1 hfold
        refine ⟨hsb, ?_, ?_, ?_⟩
        · rcases horigin with hor | ⟨hmem, hqb⟩
          · rw [hfold] at hor
            obtain ⟨rfl, rfl⟩ := Prod.mk.inj (Option.some.inj hor)
            rcases horig1 with hbh | hacc1
            · exact Or.inr ⟨by rw [hbh]; exact List.mem_cons_self h rest,
                by rw [hbh]; exact hq⟩
            · exact Or.inl hacc1
          · exact Or.inr ⟨List.mem_cons_of_mem h hmem, hqb⟩
        · intro h' hmem' hq'
          rcases List.mem_cons.mp hmem' with rfl | hmem2
          · exact scoreLe_trans w r hble hvs_h
          · exact hmin h' hmem2 hq'
        · intro b0 sb0 h0
          exact scoreLe_trans w r hble (hvs_acc b0 sb0 h0)
    · rw [if_neg hq]
      obtain ⟨ihnone, ihsome⟩ := leastFit_foldl_spec w r anti rest acc hacc
      constructor
      · rw [ihnone]
        constructor
        · rintro ⟨h1, h2⟩
          refine ⟨h1, ?_⟩
          intro h' hmem'
          rcases List.mem_cons.mp hmem' with rfl | hmem2
          · cases hv : hostQualifies anti r h'
            · rfl
            · exact absurd hv hq
          · exact h2 h' hmem2
        · rintro ⟨h1, h2⟩
          exact ⟨h1, fun h' hm => h2 h' (List.mem_cons_of_mem h hm)⟩
      · intro b sb hres
        obtain ⟨hsb, horigin, hmin, hvsacc⟩ := ihsome b sb hres
        refine ⟨hsb, ?_, ?_, hvsacc⟩
        · rcases horigin with hor | ⟨hmem, hqb⟩
          · exact Or.inl hor
          · exact Or.inr ⟨List.mem_cons_of_mem h hmem, hqb⟩
        · intro h' hmem' hq'
          rcases List.mem_cons.mp hmem' with rfl | hmem2
          · exact absurd hq' hq
          · exact hmin h' hmem2 hq'

/-- C7 counterexample: with egress-only weights and a replica requesting
100 egress bandwidth, host A (egress capacity 10) and host B (egress
capacity 50) both qualify — the placeability filter never looks at the NIC
dimensions — and both receive the code score 100, because
`least_fit_score` clamps the requested amount to the host's capacity
before scoring.  The tie is kept by the incumbent, so host A is selected.
The claimed unclamped score `Σ w * 100 * (requested/capacity -
available/capacity)` is 900 for A and 100 for B, so the claim would
select host B. -/
theorem least_fit_clamped_score_counterexample :
    leastFitSelect wEgressOnly rEgress100 [] [hostA, hostB] = .ok hostA ∧
    hostQualifies [] rEgress100 hostB = true ∧
    spec_weighted_score wEgressOnly hostB rEgress100 <
      spec_weighted_score wEgressOnly hostA rEgress100 ∧
    hostA ≠ hostB := by
  refine ⟨?_, ?_, ?_, ?_⟩
  · norm_num [leastFitSelect, leastFitFold, hostQualifies, is_replica_placeable,
      calculate_host_score, least_fit_score, hostA, hostB, wEgressOnly, rEgress100,
      List.foldl]
  · norm_num [hostQualifies, is_replica_placeable, hostB, rEgress100]
  · norm_num [spec_weighted_score, hostA, hostB, wEgressOnly, rEgress100]
  · simp [hostA, hostB]

/-- C7 amended: `LeastFit.reschedule` selects, among the affinity-filtered
hosts that pass `is_replica_placeable_on_host_from_resource_perspective`
(which checks only CPU — with the best-effort escape — RAM and blkio; the
NIC checks are commented out), a host minimizing the CLAMPED score
`Σ (100 - (available - min(requested, capacity)) * 100/capacity) * w`
normalized by `Σ w`, with score ties broken in favour of strictly fewer
placed replicas (an exact tie keeps the earlier host); it raises
`ResourceNotAvailableError` exactly when no host qualifies. -/
theorem least_fit_select_minimizes_clamped_score (w : LeastFitWeights)
    (r : MicroserviceRequests) (anti : List String) (hosts : List HostState) :
    (leastFitSelect w r anti hosts =
        .error "ResourceNotAvailableError: Available hosts are not enough to place replica!" ↔
      ∀ h ∈ hosts, hostQualifies anti r h = false) ∧
    (∀ hsel, leastFitSelect w r anti hosts = .ok hsel →
      hsel ∈ hosts ∧ hostQualifies anti r hsel = true ∧
      ∀ h' ∈ hosts, hostQualifies anti r h' = true → scoreLe w r hsel h') := by
  obtain ⟨hnone, hsome⟩ := leastFit_foldl_spec w r anti hosts none
    (fun b sb h => Option.noConfusion h)
  cases hfold : hosts.foldl
      (fun best h => if hostQualifies anti r h then leastFitFold w r best h else best)
      none with
  | none =>
    have hsel : leastFitSelect w r anti hosts =
        .error "ResourceNotAvailableError: Available hosts are not enough to place replica!" := by
      unfold leastFitSelect
      rw [hfold]
    constructor
    · rw [hsel]
      exact ⟨fun _ => (hnone.1 hfold).2, fun _ => rfl⟩
    · intro hs hok
      rw [hsel] at hok
      exact Except.noConfusion hok
  | some p =>
    obtain ⟨b, sb⟩ := p
    have hselb : leastFitSelect w r anti hosts = .ok b := by
      unfold leastFitSelect
      rw [hfold]
    obtain ⟨hsb, horig, hmin, -⟩ := hsome b sb hfold
    have hbq : b ∈ hosts ∧ hostQualifies anti r b = true := by
      rcases horig with hcon | hgood
      · exact Option.noConfusion hcon
      · exact hgood
    constructor
    · rw [hselb]
      constructor
      · intro hcon
        exact Except.noConfusion hcon
      · intro hall
        exfalso
        have := hall b hbq.1
        rw [hbq.2] at this
        exact Bool.noConfusion this
    · intro hs hok
      rw [hselb] at hok
      cases Except.ok.inj hok
      exact ⟨hbq.1, hbq.2, hmin⟩

/-- C7 witness: the amended theorem applied to the two concrete hosts —
the selection returns host A, host A qualifies, and its (clamped) score is
less than or equal to host B's. -/
theorem least_fit_select_witness :
    hostA ∈ [hostA, hostB] ∧ hostQualifies [] rEgress100 hostA = true ∧
    scoreLe wEgressOnly rEgress100 hostA hostB :=
  ((least_fit_select_minimizes_clamped_score wEgressOnly rEgress100 []
      [hostA, hostB]).2 hostA
    (by norm_num [leastFitSelect, leastFitFold, hostQualifies, is_replica_placeable,
      calculate_host_score, least_fit_score, hostA, hostB, wEgressOnly, rEgress100,
      List.foldl])).imp id (fun h => h.imp id (fun hm =>
        hm hostB (by simp) (by norm_num [hostQualifies, is_replica_placeable,
          hostB, rEgress100])))
